import Mathlib

/-!
# quic-go: connection-ID manager and DATAGRAM frame codec

A shallow embedding of `conn_id_manager.go` (package `quic`) and of
`internal/wire/datagram_frame.go` (package `wire`), followed by theorems about them.

Conventions of the embedding

* Go's `uint64` and `int` values are natural numbers; where the source computes on them
  the wrap-around of 64-bit arithmetic is written out with `% 2 ^ 64`.
* A byte slice is a `List Nat` whose members are byte values.
* The manager's linked list `utils.NewConnectionIDList` is the list of its element values
  from `Front()` to `Back()`.
* The callback `queueControlFrame` is the list of frames it has been called with, oldest
  first.
* A Go panic is a result of its own, never confused with a returned error.
-/

set_option autoImplicit false

/-! ## Types the sources take from the packages `protocol`, `utils` and `wire` -/

/-- The Go type `protocol.ConnectionID`, a byte slice compared with `Equal`. -/
abbrev protocol.ConnectionID := List Nat

/-- The Go type `[16]byte` of a stateless reset token, compared with `!=`. -/
abbrev protocol.StatelessResetToken := List Nat

/-- The Go struct `utils.NewConnectionID`, the value held by a queue element. -/
structure utils.NewConnectionID where
  SequenceNumber : Nat
  ConnectionID : protocol.ConnectionID
  StatelessResetToken : protocol.StatelessResetToken
deriving DecidableEq, Repr

/-- The Go struct `wire.NewConnectionIDFrame`. -/
structure wire.NewConnectionIDFrame where
  SequenceNumber : Nat
  RetirePriorTo : Nat
  ConnectionID : protocol.ConnectionID
  StatelessResetToken : protocol.StatelessResetToken
deriving DecidableEq, Repr

/-- The Go struct `wire.RetireConnectionIDFrame`. -/
structure wire.RetireConnectionIDFrame where
  SequenceNumber : Nat
deriving DecidableEq, Repr

/-- Modelled from the spec: `utils.NewConnectionIDList` is not under `src/`; the spec (§9)
calls it the source's linked list with iterator traversal and fixes nothing about an
iterator whose element has been removed. This type is the answer of `el.Next()` for an
element `el` that `Remove(el)` has just taken out of the list:
`nil` is the behaviour of Go's `container/list`, whose element API the list has
(`Remove` clears `el.next`, `el.prev` and `el.list`, so `Next()` returns nil);
`successor` is the element that followed `el` before the removal. -/
inductive utils.RemovedNext where
  | nil
  | successor
deriving DecidableEq, Repr

/-- Modelled from the spec: the constants `protocol.MaxActiveConnectionIDs` and
`protocol.PacketsPerConnectionID` are not under `src/`; the spec (§6) treats the
active-connection-ID capacity limit and the per-ID packet budget as injected constants.
`removedNext` is the iterator behaviour of the absent linked list. -/
structure protocol.Params where
  MaxActiveConnectionIDs : Nat
  PacketsPerConnectionID : Nat
  removedNext : utils.RemovedNext
deriving DecidableEq, Repr

/-! ## conn_id_manager.go -/

namespace quic

/-- The Go struct `connIDManager`. -/
structure connIDManager where
  queue : List utils.NewConnectionID
  changedAtLeastOnce : Bool
  packetsSinceLastChange : Nat
  queueControlFrame : List wire.RetireConnectionIDFrame
deriving DecidableEq, Repr

/-- The Go function `newConnIDManager`: every field has its zero value. -/
def newConnIDManager : connIDManager :=
  { queue := [], changedAtLeastOnce := false, packetsSinceLastChange := 0,
    queueControlFrame := [] }

/-- How a call of `add` or `Add` ends: `return nil`, one of the two `fmt.Errorf` errors,
or the panic of the last line of `add`. -/
inductive Result where
  | nil
  | conflictingConnectionIDs (sequenceNumber : Nat)
  | conflictingStatelessResetTokens (sequenceNumber : Nat)
  | panic
deriving DecidableEq, Repr

/-- The call returned a non-nil error. -/
def Result.isError : Result → Bool
  | .conflictingConnectionIDs _ => true
  | .conflictingStatelessResetTokens _ => true
  | _ => false

/-- The value `add` and `Add` put into the queue for a frame. -/
def entryOf (f : wire.NewConnectionIDFrame) : utils.NewConnectionID :=
  { SequenceNumber := f.SequenceNumber, ConnectionID := f.ConnectionID,
    StatelessResetToken := f.StatelessResetToken }

/-- The first loop of `add` (lines 39-48), started at element `el` with the elements
`rest` behind it: the queue it leaves and the frames it hands to `queueControlFrame`.
After `Remove(el)` the loop goes on with `el.Next()`, which is nil or the successor
according to `nx`. -/
def retireLoop (nx : utils.RemovedNext) (retirePriorTo : Nat) :
    List utils.NewConnectionID →
      List utils.NewConnectionID × List wire.RetireConnectionIDFrame
  | [] => ([], [])
  | el :: rest =>
    if el.SequenceNumber < retirePriorTo then
      match nx with
      | .nil => (rest, [⟨el.SequenceNumber⟩])
      | .successor =>
        let r := retireLoop nx retirePriorTo rest
        (r.1, ⟨el.SequenceNumber⟩ :: r.2)
    else (el :: rest, [])

/-- The second loop of `add` (lines 60-78) and the panic behind it (line 79): the result
and the queue from the current element on. -/
def insertLoop (f : wire.NewConnectionIDFrame) :
    List utils.NewConnectionID → Result × List utils.NewConnectionID
  | [] => (.panic, [])
  | el :: rest =>
    if el.SequenceNumber = f.SequenceNumber then
      if el.ConnectionID ≠ f.ConnectionID then
        (.conflictingConnectionIDs f.SequenceNumber, el :: rest)
      else if el.StatelessResetToken ≠ f.StatelessResetToken then
        (.conflictingStatelessResetTokens f.SequenceNumber, el :: rest)
      else (.nil, el :: rest)
    else if el.SequenceNumber > f.SequenceNumber then
      (.nil, entryOf f :: el :: rest)
    else
      let r := insertLoop f rest
      (r.1, el :: r.2)

/-- The condition of line 51:
`h.queue.Len() == 0 || h.queue.Back().Value.SequenceNumber < f.SequenceNumber`. -/
def insertAtEnd (q : List utils.NewConnectionID) (f : wire.NewConnectionIDFrame) : Bool :=
  q.length == 0 ||
    (match q.getLast? with
     | some back => decide (back.SequenceNumber < f.SequenceNumber)
     | none => false)

/-- The Go method `connIDManager.add`. -/
def connIDManager.add (p : protocol.Params) (h : connIDManager)
    (f : wire.NewConnectionIDFrame) : Result × connIDManager :=
  let r := retireLoop p.removedNext f.RetirePriorTo h.queue
  let h1 := { h with queue := r.1, queueControlFrame := h.queueControlFrame ++ r.2 }
  if insertAtEnd h1.queue f then
    (.nil, { h1 with queue := h1.queue ++ [entryOf f] })
  else
    let s := insertLoop f h1.queue
    (s.1, { h1 with queue := s.2 })

/-- The Go method `connIDManager.Add`. An error or a panic of `add` ends the call; the
last case cannot be entered, since a queue longer than the limit has a front. -/
def connIDManager.Add (p : protocol.Params) (h : connIDManager)
    (f : wire.NewConnectionIDFrame) : Result × connIDManager :=
  let r := h.add p f
  if r.1 ≠ .nil then r
  else if r.2.queue.length > p.MaxActiveConnectionIDs then
    match r.2.queue with
    | val :: rest =>
      (.nil, { r.2 with queue := rest,
                        queueControlFrame := r.2.queueControlFrame ++ [⟨val.SequenceNumber⟩] })
    | [] => (.panic, r.2)
  else (.nil, r.2)

/-- The Go method `connIDManager.SentPacket`: `++` on a `uint64`. -/
def connIDManager.SentPacket (h : connIDManager) : connIDManager :=
  { h with packetsSinceLastChange := (h.packetsSinceLastChange + 1) % 2 ^ 64 }

/-- The Go method `connIDManager.shouldChangeConnID`. -/
def connIDManager.shouldChangeConnID (p : protocol.Params) (h : connIDManager) : Bool :=
  if !h.changedAtLeastOnce then true
  else decide (2 * h.queue.length > p.MaxActiveConnectionIDs) &&
    decide (h.packetsSinceLastChange > p.PacketsPerConnectionID)

/-- The Go method `connIDManager.MaybeGetNewConnID`. The returned pair
`(protocol.ConnectionID, *[16]byte)` is `none` for `(nil, nil)` and otherwise holds the
connection ID and the token the pointer points to. -/
def connIDManager.MaybeGetNewConnID (p : protocol.Params) (h : connIDManager) :
    Option (protocol.ConnectionID × protocol.StatelessResetToken) × connIDManager :=
  if !h.shouldChangeConnID p || h.queue.length == 0 then (none, h)
  else
    match h.queue with
    | val :: rest =>
      (some (val.ConnectionID, val.StatelessResetToken),
        { h with changedAtLeastOnce := true, packetsSinceLastChange := 0, queue := rest })
    | [] => (none, h)

end quic

/-! ## internal/wire/datagram_frame.go -/

/-- The two errors of package `io` that reading can return. -/
inductive io.Error where
  | EOF
  | ErrUnexpectedEOF
deriving DecidableEq, Repr

/-- Modelled from the spec: `utils.VarIntLen` is not under `src/`. The spec (§2, §4.2)
gives the variable-length integer a self-describing form of 1, 2, 4 or 8 bytes, 1 byte
for values below 64 and 2 bytes for values below 16384; the 4- and 8-byte forms hold
values below `2 ^ 30` and `2 ^ 62`. A value of 62 bits or more has no encoding
(`none`: the Go function panics). -/
def utils.VarIntLen (i : Nat) : Option Nat :=
  if i < 64 then some 1
  else if i < 16384 then some 2
  else if i < 2 ^ 30 then some 4
  else if i < 2 ^ 62 then some 8
  else none

/-- Modelled from the spec: `utils.WriteVarInt` is not under `src/`. It appends the
self-describing form of `i` to the buffer `b`: the two highest bits of the first byte
give the width (00, 01, 10, 11 for 1, 2, 4, 8 bytes), the other bits are `i`, big-endian.
A value of 62 bits or more has no encoding (`none`: the Go function panics). -/
def utils.WriteVarInt (b : List Nat) (i : Nat) : Option (List Nat) :=
  if i < 64 then some (b ++ [i])
  else if i < 16384 then some (b ++ [(i >>> 8) % 256 ||| 0x40, i % 256])
  else if i < 2 ^ 30 then
    some (b ++ [(i >>> 24) % 256 ||| 0x80, (i >>> 16) % 256, (i >>> 8) % 256, i % 256])
  else if i < 2 ^ 62 then
    some (b ++ [(i >>> 56) % 256 ||| 0xc0, (i >>> 48) % 256, (i >>> 40) % 256,
      (i >>> 32) % 256, (i >>> 24) % 256, (i >>> 16) % 256, (i >>> 8) % 256, i % 256])
  else none

/-- Modelled from the spec: `utils.ReadVarInt` is not under `src/`. It decodes one
variable-length integer from the front of the reader `r` and returns it with the bytes
left; a reader that ends inside the integer gives `io.EOF`. -/
def utils.ReadVarInt (r : List Nat) : Except io.Error (Nat × List Nat) :=
  match r with
  | [] => .error .EOF
  | firstByte :: r1 =>
    let len := 1 <<< ((firstByte &&& 0xc0) >>> 6)
    let b1 := firstByte &&& (0xff - 0xc0)
    if len = 1 then .ok (b1, r1)
    else if len = 2 then
      match r1 with
      | b2 :: r2 => .ok (b2 + (b1 <<< 8), r2)
      | _ => .error .EOF
    else if len = 4 then
      match r1 with
      | b2 :: b3 :: b4 :: r4 => .ok (b4 + (b3 <<< 8) + (b2 <<< 16) + (b1 <<< 24), r4)
      | _ => .error .EOF
    else
      match r1 with
      | b2 :: b3 :: b4 :: b5 :: b6 :: b7 :: b8 :: r8 =>
        .ok (b8 + (b7 <<< 8) + (b6 <<< 16) + (b5 <<< 24) + (b4 <<< 32) + (b3 <<< 40) +
          (b2 <<< 48) + (b1 <<< 56), r8)
      | _ => .error .EOF

/-- The Go function `io.ReadFull(r, buf)` for a buffer of `n` bytes on a `bytes.Reader`
holding `r`: the bytes read and the bytes left. -/
def io.ReadFull (r : List Nat) (n : Nat) : Except io.Error (List Nat × List Nat) :=
  if n = 0 then .ok ([], r)
  else if r.length = 0 then .error .EOF
  else if r.length < n then .error .ErrUnexpectedEOF
  else .ok (r.take n, r.drop n)

namespace wire

/-- The Go struct `DatagramFrame`. -/
structure DatagramFrame where
  FlowID : Nat
  DataLenPresent : Bool
  Data : List Nat
deriving DecidableEq, Repr

/-- The Go function `parseDatagramFrame` on a `bytes.Reader` holding `r`: the frame and
the bytes left in the reader, or the error. -/
def parseDatagramFrame (r : List Nat) : Except io.Error (DatagramFrame × List Nat) :=
  match r with
  | [] => .error .EOF
  | typeByte :: r0 => do
    let dataLenPresent := decide (typeByte &&& 0x1 > 0)
    let (flowID, r1) ←
      if typeByte &&& 0x2 > 0 then utils.ReadVarInt r0 else pure (0, r0)
    let (length, r2) ←
      if dataLenPresent then do
        let (len, r2) ← utils.ReadVarInt r1
        if len > r2.length then throw io.Error.EOF
        pure (len, r2)
      else pure (r1.length, r1)
    let (data, r3) ← io.ReadFull r2 length
    pure ({ FlowID := flowID, DataLenPresent := dataLenPresent, Data := data }, r3)

/-- The Go method `DatagramFrame.Write` on a buffer holding `b`: the buffer afterwards.
The method returns the nil error whenever it returns; `none` is a panic of
`utils.WriteVarInt`. -/
def DatagramFrame.Write (f : DatagramFrame) (b : List Nat) : Option (List Nat) := do
  let typeByte := 0x30
  let typeByte := if f.DataLenPresent then typeByte ^^^ 0x1 else typeByte
  let typeByte := if f.FlowID ≠ 0 then typeByte ^^^ 0x2 else typeByte
  let b := b ++ [typeByte]
  let b ← if f.FlowID ≠ 0 then utils.WriteVarInt b f.FlowID else pure b
  let b ← if f.DataLenPresent then utils.WriteVarInt b f.Data.length else pure b
  pure (b ++ f.Data)

/-- The Go method `DatagramFrame.MaxDataLen`; `protocol.ByteCount` is a `uint64`. -/
def DatagramFrame.MaxDataLen (f : DatagramFrame) (maxSize : Nat) : Option Nat := do
  let headerLen := 1
  let headerLen ←
    if f.FlowID ≠ 0 then (utils.VarIntLen f.FlowID).map (fun n => (headerLen + n) % 2 ^ 64)
    else pure headerLen
  let headerLen := if f.DataLenPresent then (headerLen + 1) % 2 ^ 64 else headerLen
  if headerLen > maxSize then pure 0
  else
    let maxDataLen := maxSize - headerLen
    if f.DataLenPresent then do
      let n ← utils.VarIntLen maxDataLen
      if n ≠ 1 then pure ((maxDataLen + 2 ^ 64 - 1) % 2 ^ 64) else pure maxDataLen
    else pure maxDataLen

/-- The Go method `DatagramFrame.Length`; `protocol.ByteCount` is a `uint64`. -/
def DatagramFrame.Length (f : DatagramFrame) : Option Nat := do
  let length := (1 + f.Data.length) % 2 ^ 64
  let length ←
    if f.FlowID ≠ 0 then (utils.VarIntLen f.FlowID).map (fun n => (length + n) % 2 ^ 64)
    else pure length
  let length ←
    if f.DataLenPresent then
      (utils.VarIntLen f.Data.length).map (fun n => (length + n) % 2 ^ 64)
    else pure length
  pure length

end wire

/-! ## Vocabulary of the statements -/

namespace quic

/-- The queue is strictly ascending by sequence number from front to back. -/
def Ascending (q : List utils.NewConnectionID) : Prop :=
  q.Pairwise (fun a b => a.SequenceNumber < b.SequenceNumber)

instance instDecidableAscending (q : List utils.NewConnectionID) : Decidable (Ascending q) :=
  inferInstanceAs (Decidable (q.Pairwise _))

/-- The RETIRE_CONNECTION_ID frame that names a queue entry. -/
def retireFrameOf (e : utils.NewConnectionID) : wire.RetireConnectionIDFrame :=
  { SequenceNumber := e.SequenceNumber }

/-- A queue entry with sequence number `n` whose 4-byte connection ID and 16-byte
stateless reset token are filled with the byte `b`. -/
def sampleEntry (n b : Nat) : utils.NewConnectionID :=
  { SequenceNumber := n, ConnectionID := List.replicate 4 b,
    StatelessResetToken := List.replicate 16 b }

/-- A NEW_CONNECTION_ID frame with sequence number `n` and Retire Prior To `r` whose
4-byte connection ID and 16-byte stateless reset token are filled with the byte `b`. -/
def sampleFrame (n r b : Nat) : wire.NewConnectionIDFrame :=
  { SequenceNumber := n, RetirePriorTo := r, ConnectionID := List.replicate 4 b,
    StatelessResetToken := List.replicate 16 b }

/-- One call of an exported method of the manager. -/
inductive Call where
  | Add (f : wire.NewConnectionIDFrame)
  | SentPacket
  | MaybeGetNewConnID
deriving DecidableEq, Repr

/-- The manager after one call. -/
def step (p : protocol.Params) (h : connIDManager) : Call → connIDManager
  | .Add f => (h.Add p f).2
  | .SentPacket => h.SentPacket
  | .MaybeGetNewConnID => (h.MaybeGetNewConnID p).2

/-- The manager after a sequence of calls, the first call first. -/
def run (p : protocol.Params) (h : connIDManager) (calls : List Call) : connIDManager :=
  calls.foldl (step p) h

/-- The sequence numbers of the queue entries, from front to back. -/
def seqNums (q : List utils.NewConnectionID) : List Nat :=
  q.map (fun e => e.SequenceNumber)

/-- The sequence numbers the RETIRE_CONNECTION_ID frames carry, in the order sent. -/
def retiredNums (fs : List wire.RetireConnectionIDFrame) : List Nat :=
  fs.map (fun r => r.SequenceNumber)

/-- The number of `SentPacket` calls in a sequence of calls. -/
def sentPackets : List Call → Nat
  | [] => 0
  | .SentPacket :: rest => sentPackets rest + 1
  | _ :: rest => sentPackets rest

end quic

namespace wire

/-- The bytes of the variable-length integer `i`, as `utils.WriteVarInt` appends them to
an empty buffer; no bytes for a value that has no encoding. -/
def varIntBytes (i : Nat) : List Nat :=
  (utils.WriteVarInt [] i).getD []

/-- The size of the frame header in the words of the specification: one type byte, the
flow-ID integer if `FlowID` is not 0, and one byte of length if `DataLenPresent`. -/
def DatagramFrame.headerLen (f : DatagramFrame) : Nat :=
  1 + (if f.FlowID ≠ 0 then (utils.VarIntLen f.FlowID).getD 0 else 0) +
    (if f.DataLenPresent then 1 else 0)

end wire

/-! ## Lemmas on the two loops of `add` -/

namespace quic

theorem retireLoop_split (nx : utils.RemovedNext) (r : Nat) (q : List utils.NewConnectionID) :
    ∃ swept, q = swept ++ (retireLoop nx r q).1 ∧
      (retireLoop nx r q).2 = swept.map retireFrameOf ∧
      ∀ x ∈ swept, x.SequenceNumber < r := by
  induction q with
  | nil => exact ⟨[], by simp [retireLoop]⟩
  | cons el rest ih =>
    by_cases hlt : el.SequenceNumber < r
    · cases nx with
      | nil => exact ⟨[el], by simp [retireLoop, hlt, retireFrameOf]⟩
      | successor =>
        obtain ⟨sw, h1, h2, h3⟩ := ih
        refine ⟨el :: sw, ?_, ?_, ?_⟩
        · simp only [retireLoop, hlt, if_true, List.cons_append]
          exact congrArg _ h1
        · simp only [retireLoop, hlt, if_true, List.map_cons, retireFrameOf]
          exact congrArg _ h2
        · intro x hx
          rcases List.mem_cons.1 hx with rfl | hx
          · exact hlt
          · exact h3 x hx
    · exact ⟨[], by simp [retireLoop, hlt]⟩

theorem retireLoop_suffix (nx : utils.RemovedNext) (r : Nat) (q : List utils.NewConnectionID) :
    (retireLoop nx r q).1 <:+ q := by
  obtain ⟨sw, h1, -, -⟩ := retireLoop_split nx r q
  exact ⟨sw, h1.symm⟩

theorem retireLoop_length (nx : utils.RemovedNext) (r : Nat) (q : List utils.NewConnectionID) :
    (retireLoop nx r q).1.length ≤ q.length :=
  (retireLoop_suffix nx r q).length_le

theorem retireLoop_ascending (nx : utils.RemovedNext) (r : Nat)
    (q : List utils.NewConnectionID) (hq : Ascending q) : Ascending (retireLoop nx r q).1 :=
  List.Pairwise.sublist (retireLoop_suffix nx r q).sublist hq

theorem retireLoop_of_le (nx : utils.RemovedNext) (r : Nat) (q : List utils.NewConnectionID)
    (hq : ∀ x ∈ q, r ≤ x.SequenceNumber) : retireLoop nx r q = (q, []) := by
  cases q with
  | nil => rfl
  | cons el rest =>
    have : ¬ el.SequenceNumber < r := Nat.not_lt.2 (hq el (List.mem_cons_self _ _))
    simp [retireLoop, this]

theorem retireLoop_nil_length (r : Nat) (q : List utils.NewConnectionID) :
    (retireLoop .nil r q).2.length ≤ 1 := by
  cases q with
  | nil => simp [retireLoop]
  | cons el rest =>
    simp only [retireLoop]
    split_ifs <;> simp

theorem retireLoop_successor_ge (r : Nat) (q : List utils.NewConnectionID)
    (hq : Ascending q) : ∀ x ∈ (retireLoop .successor r q).1, r ≤ x.SequenceNumber := by
  induction q with
  | nil => simp [retireLoop]
  | cons el rest ih =>
    by_cases hlt : el.SequenceNumber < r
    · simp only [retireLoop, hlt, if_true]
      exact ih (List.pairwise_cons.1 hq).2
    · simp only [retireLoop, hlt, if_false]
      intro x hx
      rcases List.mem_cons.1 hx with rfl | hx
      · exact Nat.not_lt.1 hlt
      · exact le_trans (Nat.not_lt.1 hlt) (le_of_lt ((List.pairwise_cons.1 hq).1 x hx))

theorem insertLoop_length (f : wire.NewConnectionIDFrame) (q : List utils.NewConnectionID) :
    (insertLoop f q).2.length ≤ q.length + 1 := by
  induction q with
  | nil => simp [insertLoop]
  | cons el rest ih =>
    simp only [insertLoop]
    split_ifs <;> simp only [List.length_cons] <;> omega

theorem insertLoop_mem (f : wire.NewConnectionIDFrame) (q : List utils.NewConnectionID)
    (x : utils.NewConnectionID) (hx : x ∈ (insertLoop f q).2) : x ∈ q ∨ x = entryOf f := by
  induction q with
  | nil => simp [insertLoop] at hx
  | cons el rest ih =>
    simp only [insertLoop] at hx
    split_ifs at hx
    · exact Or.inl hx
    · exact Or.inl hx
    · exact Or.inl hx
    · rcases List.mem_cons.1 hx with rfl | hx
      · exact Or.inr rfl
      · exact Or.inl hx
    · rcases List.mem_cons.1 hx with rfl | hx
      · exact Or.inl (List.mem_cons_self _ _)
      · rcases ih hx with h | h
        · exact Or.inl (List.mem_cons_of_mem _ h)
        · exact Or.inr h

theorem insertLoop_ascending (f : wire.NewConnectionIDFrame) (q : List utils.NewConnectionID)
    (hq : Ascending q) : Ascending (insertLoop f q).2 := by
  induction q with
  | nil => simp [insertLoop, Ascending]
  | cons el rest ih =>
    have hrest : Ascending rest := (List.pairwise_cons.1 hq).2
    have hel := (List.pairwise_cons.1 hq).1
    simp only [insertLoop]
    split_ifs with h1 h2 h3 h4
    · exact hq
    · exact hq
    · exact hq
    · refine List.pairwise_cons.2 ⟨?_, hq⟩
      intro x hx
      rcases List.mem_cons.1 hx with rfl | hx
      · exact h4
      · exact lt_trans h4 (hel x hx)
    · refine List.pairwise_cons.2 ⟨?_, ih hrest⟩
      intro x hx
      rcases insertLoop_mem f rest x hx with h | rfl
      · exact hel x h
      · simp only [entryOf]
        omega

end quic

/-! ## Lemmas on `add` and `Add` -/

namespace quic

theorem ascending_le_getLast (q : List utils.NewConnectionID) (b : utils.NewConnectionID)
    (hq : Ascending q) (hb : q.getLast? = some b) :
    ∀ x ∈ q, x.SequenceNumber ≤ b.SequenceNumber := by
  obtain ⟨ys, rfl⟩ := List.getLast?_eq_some_iff.1 hb
  intro x hx
  rcases List.mem_append.1 hx with h | h
  · exact le_of_lt ((List.pairwise_append.1 hq).2.2 x h b (List.mem_singleton_self b))
  · rw [List.mem_singleton.1 h]

theorem insertAtEnd_true (q : List utils.NewConnectionID) (f : wire.NewConnectionIDFrame)
    (hq : Ascending q) (h : insertAtEnd q f = true) :
    ∀ x ∈ q, x.SequenceNumber < f.SequenceNumber := by
  intro x hx
  cases hl : q.getLast? with
  | none => rw [List.getLast?_eq_none_iff.1 hl] at hx; simp at hx
  | some b =>
    have hne : q ≠ [] := List.ne_nil_of_mem hx
    have hb : b.SequenceNumber < f.SequenceNumber := by
      simpa [insertAtEnd, hl, hne] using h
    exact lt_of_le_of_lt (ascending_le_getLast q b hq hl x hx) hb

theorem insertAtEnd_false (q : List utils.NewConnectionID) (f : wire.NewConnectionIDFrame)
    (h : insertAtEnd q f = false) :
    ∃ b, b ∈ q ∧ f.SequenceNumber ≤ b.SequenceNumber := by
  cases hl : q.getLast? with
  | none => simp [insertAtEnd, List.getLast?_eq_none_iff.1 hl] at h
  | some b =>
    refine ⟨b, List.mem_of_getLast?_eq_some hl, ?_⟩
    simp only [insertAtEnd, hl, Bool.or_eq_false_iff, decide_eq_false_iff_not] at h
    exact Nat.not_lt.1 h.2

theorem insertAtEnd_of_lt (q : List utils.NewConnectionID) (f : wire.NewConnectionIDFrame)
    (h : ∀ x ∈ q, x.SequenceNumber < f.SequenceNumber) : insertAtEnd q f = true := by
  cases hl : q.getLast? with
  | none => simp [insertAtEnd, List.getLast?_eq_none_iff.1 hl]
  | some b =>
    have := h b (List.mem_of_getLast?_eq_some hl)
    simp [insertAtEnd, hl, this]

theorem add_eq (p : protocol.Params) (h : connIDManager) (f : wire.NewConnectionIDFrame) :
    h.add p f =
      if insertAtEnd (retireLoop p.removedNext f.RetirePriorTo h.queue).1 f then
        (.nil, { h with
          queue := (retireLoop p.removedNext f.RetirePriorTo h.queue).1 ++ [entryOf f],
          queueControlFrame :=
            h.queueControlFrame ++ (retireLoop p.removedNext f.RetirePriorTo h.queue).2 })
      else
        ((insertLoop f (retireLoop p.removedNext f.RetirePriorTo h.queue).1).1, { h with
          queue := (insertLoop f (retireLoop p.removedNext f.RetirePriorTo h.queue).1).2,
          queueControlFrame :=
            h.queueControlFrame ++ (retireLoop p.removedNext f.RetirePriorTo h.queue).2 }) :=
  rfl

theorem add_ascending (p : protocol.Params) (h : connIDManager)
    (f : wire.NewConnectionIDFrame) (hq : Ascending h.queue) :
    Ascending (h.add p f).2.queue := by
  have h1 := retireLoop_ascending p.removedNext f.RetirePriorTo h.queue hq
  rw [add_eq]
  split_ifs with he
  · refine List.pairwise_append.2 ⟨h1, List.pairwise_singleton _ _, ?_⟩
    intro x hx y hy
    rw [List.mem_singleton.1 hy]
    exact insertAtEnd_true _ f h1 he x hx
  · exact insertLoop_ascending f _ h1

theorem add_length (p : protocol.Params) (h : connIDManager)
    (f : wire.NewConnectionIDFrame) : (h.add p f).2.queue.length ≤ h.queue.length + 1 := by
  have h1 := retireLoop_length p.removedNext f.RetirePriorTo h.queue
  rw [add_eq]
  split_ifs with he
  · simp only [List.length_append, List.length_singleton]
    omega
  · have h2 := insertLoop_length f (retireLoop p.removedNext f.RetirePriorTo h.queue).1
    simp only
    omega

theorem insertLoop_not_nil (f : wire.NewConnectionIDFrame) (q : List utils.NewConnectionID)
    (h : (insertLoop f q).1 ≠ .nil) : (insertLoop f q).2 = q := by
  induction q with
  | nil => rfl
  | cons el rest ih =>
    simp only [insertLoop] at h ⊢
    split_ifs at h ⊢ with h1 h2 h3 h4
    · rfl
    · rfl
    · exact absurd rfl h
    · exact absurd rfl h
    · exact congrArg _ (ih h)

theorem add_not_nil (p : protocol.Params) (h : connIDManager)
    (f : wire.NewConnectionIDFrame) (hr : (h.add p f).1 ≠ .nil) :
    (h.add p f).2 = { h with
      queue := (retireLoop p.removedNext f.RetirePriorTo h.queue).1,
      queueControlFrame :=
        h.queueControlFrame ++ (retireLoop p.removedNext f.RetirePriorTo h.queue).2 } := by
  rw [add_eq] at hr ⊢
  split_ifs at hr ⊢ with he
  · exact absurd rfl hr
  · simp only [insertLoop_not_nil f _ hr]

theorem insertLoop_of_mem (f : wire.NewConnectionIDFrame) (q : List utils.NewConnectionID)
    (e : utils.NewConnectionID) (hq : Ascending q) (he : e ∈ q)
    (hs : e.SequenceNumber = f.SequenceNumber) :
    insertLoop f q =
      (if e.ConnectionID ≠ f.ConnectionID then .conflictingConnectionIDs f.SequenceNumber
        else if e.StatelessResetToken ≠ f.StatelessResetToken then
          .conflictingStatelessResetTokens f.SequenceNumber
        else .nil, q) := by
  induction q with
  | nil => simp at he
  | cons el rest ih =>
    have hel := (List.pairwise_cons.1 hq).1
    rcases List.mem_cons.1 he with rfl | hr
    · simp only [insertLoop, hs, if_true]
      split_ifs <;> rfl
    · have hlt : el.SequenceNumber < f.SequenceNumber := hs ▸ hel e hr
      have h1 : ¬ el.SequenceNumber = f.SequenceNumber := Nat.ne_of_lt hlt
      have h2 : ¬ el.SequenceNumber > f.SequenceNumber := Nat.not_lt.2 (le_of_lt hlt)
      simp only [insertLoop, h1, h2, if_false]
      rw [ih (List.pairwise_cons.1 hq).2 hr]

theorem mem_retireLoop_of_le (nx : utils.RemovedNext) (r : Nat)
    (q : List utils.NewConnectionID) (e : utils.NewConnectionID) (he : e ∈ q)
    (hr : r ≤ e.SequenceNumber) : e ∈ (retireLoop nx r q).1 := by
  obtain ⟨sw, h1, -, h3⟩ := retireLoop_split nx r q
  rw [h1] at he
  rcases List.mem_append.1 he with h | h
  · exact absurd (h3 e h) (Nat.not_lt.2 hr)
  · exact h

theorem insertAtEnd_of_mem (q : List utils.NewConnectionID) (f : wire.NewConnectionIDFrame)
    (e : utils.NewConnectionID) (hq : Ascending q) (he : e ∈ q)
    (hs : f.SequenceNumber ≤ e.SequenceNumber) : insertAtEnd q f = false := by
  cases hb : insertAtEnd q f with
  | false => rfl
  | true => exact absurd (insertAtEnd_true q f hq hb e he) (Nat.not_lt.2 hs)

theorem add_of_mem (p : protocol.Params) (h : connIDManager) (f : wire.NewConnectionIDFrame)
    (e : utils.NewConnectionID) (hq : Ascending h.queue) (he : e ∈ h.queue)
    (hs : e.SequenceNumber = f.SequenceNumber) (hr : f.RetirePriorTo ≤ f.SequenceNumber) :
    h.add p f =
      (if e.ConnectionID ≠ f.ConnectionID then .conflictingConnectionIDs f.SequenceNumber
        else if e.StatelessResetToken ≠ f.StatelessResetToken then
          .conflictingStatelessResetTokens f.SequenceNumber
        else .nil,
       { h with
          queue := (retireLoop p.removedNext f.RetirePriorTo h.queue).1,
          queueControlFrame :=
            h.queueControlFrame ++ (retireLoop p.removedNext f.RetirePriorTo h.queue).2 }) := by
  have h1 := retireLoop_ascending p.removedNext f.RetirePriorTo h.queue hq
  have h2 := mem_retireLoop_of_le p.removedNext f.RetirePriorTo h.queue e he (hs ▸ hr)
  rw [add_eq, insertAtEnd_of_mem _ f e h1 h2 (le_of_eq hs.symm),
    insertLoop_of_mem f _ e h1 h2 hs]
  simp


theorem insertLoop_nil_mem (f : wire.NewConnectionIDFrame) (q : List utils.NewConnectionID)
    (h : (insertLoop f q).1 = .nil) : entryOf f ∈ (insertLoop f q).2 := by
  induction q with
  | nil => simp [insertLoop] at h
  | cons el rest ih =>
    simp only [insertLoop] at h ⊢
    split_ifs at h ⊢ with h1 h2 h3 h4
    · have h2' : el.ConnectionID = f.ConnectionID := not_not.1 h2
      have h3' : el.StatelessResetToken = f.StatelessResetToken := not_not.1 h3
      have : entryOf f = el := by
        cases el
        simp_all [entryOf]
      rw [this]
      exact List.mem_cons_self _ _
    · exact List.mem_cons_self _ _
    · exact List.mem_cons_of_mem _ (ih h)

theorem Add_of_add_not_nil (p : protocol.Params) (h : connIDManager)
    (f : wire.NewConnectionIDFrame) (hr : (h.add p f).1 ≠ .nil) : h.Add p f = h.add p f := by
  unfold connIDManager.Add
  simp only [hr, ne_eq, not_false_eq_true, if_true]

theorem Add_of_add_nil (p : protocol.Params) (h : connIDManager)
    (f : wire.NewConnectionIDFrame) (hr : (h.add p f).1 = .nil)
    (hl : (h.add p f).2.queue.length ≤ p.MaxActiveConnectionIDs) :
    h.Add p f = (.nil, (h.add p f).2) := by
  unfold connIDManager.Add
  simp only [hr, ne_eq, not_true_eq_false, if_false]
  rw [if_neg (Nat.not_lt.2 hl)]

theorem add_nil_of_Add_not_error (p : protocol.Params) (h : connIDManager)
    (f : wire.NewConnectionIDFrame) (hr : (h.Add p f).1 = .nil) : (h.add p f).1 = .nil := by
  by_contra hc
  rw [Add_of_add_not_nil p h f hc] at hr
  exact hc hr

theorem add_not_nil_of_Add_error (p : protocol.Params) (h : connIDManager)
    (f : wire.NewConnectionIDFrame) (hr : (h.Add p f).1.isError = true) :
    (h.add p f).1 ≠ .nil := by
  intro hc
  unfold connIDManager.Add at hr
  simp only [hc, ne_eq, not_true_eq_false, if_false] at hr
  split_ifs at hr
  · split at hr <;> simp [Result.isError] at hr
  · simp [Result.isError] at hr

theorem Add_queue_suffix (p : protocol.Params) (h : connIDManager)
    (f : wire.NewConnectionIDFrame) : (h.Add p f).2.queue <:+ (h.add p f).2.queue := by
  unfold connIDManager.Add
  simp only
  split_ifs with h1 h2
  · exact List.suffix_refl _
  · split
    · next val rest heq => rw [heq]; exact List.suffix_cons val rest
    · exact List.suffix_refl _
  · exact List.suffix_refl _

theorem Add_ascending (p : protocol.Params) (h : connIDManager)
    (f : wire.NewConnectionIDFrame) (hq : Ascending h.queue) :
    Ascending (h.Add p f).2.queue :=
  List.Pairwise.sublist (Add_queue_suffix p h f).sublist (add_ascending p h f hq)

theorem Add_length (p : protocol.Params) (h : connIDManager)
    (f : wire.NewConnectionIDFrame) (hl : h.queue.length ≤ p.MaxActiveConnectionIDs) :
    (h.Add p f).2.queue.length ≤ p.MaxActiveConnectionIDs := by
  have h0 := add_length p h f
  unfold connIDManager.Add
  simp only
  split_ifs with h1 h2
  · rw [add_not_nil p h f h1]
    exact le_trans (retireLoop_length _ _ _) hl
  · split
    · next val rest heq =>
      rw [heq] at h0
      simp only [List.length_cons] at h0 ⊢
      omega
    · next heq => rw [heq] at h2; simp at h2
  · simpa using h2

end quic

/-! ## The queue invariants -/

namespace quic

theorem run_append (p : protocol.Params) (h : connIDManager) (calls : List Call) (c : Call) :
    run p h (calls ++ [c]) = step p (run p h calls) c := by
  simp [run, List.foldl_append]

theorem MaybeGetNewConnID_queue_suffix (p : protocol.Params) (h : connIDManager) :
    (h.MaybeGetNewConnID p).2.queue <:+ h.queue := by
  unfold connIDManager.MaybeGetNewConnID
  split_ifs
  · exact List.suffix_refl _
  · split
    · next val rest heq => rw [heq]; exact List.suffix_cons val rest
    · exact List.suffix_refl _

theorem step_invariant (p : protocol.Params) (h : connIDManager) (c : Call)
    (hq : Ascending h.queue ∧ h.queue.length ≤ p.MaxActiveConnectionIDs) :
    Ascending (step p h c).queue ∧ (step p h c).queue.length ≤ p.MaxActiveConnectionIDs := by
  cases c with
  | Add f => exact ⟨Add_ascending p h f hq.1, Add_length p h f hq.2⟩
  | SentPacket => exact hq
  | MaybeGetNewConnID =>
    have hs := MaybeGetNewConnID_queue_suffix p h
    exact ⟨List.Pairwise.sublist hs.sublist hq.1, le_trans hs.length_le hq.2⟩

theorem run_invariant (p : protocol.Params) (calls : List Call) (h : connIDManager)
    (hq : Ascending h.queue ∧ h.queue.length ≤ p.MaxActiveConnectionIDs) :
    Ascending (run p h calls).queue ∧
      (run p h calls).queue.length ≤ p.MaxActiveConnectionIDs := by
  induction calls generalizing h with
  | nil => exact hq
  | cons c rest ih => exact ih (step p h c) (step_invariant p h c hq)

theorem run_new_invariant (p : protocol.Params) (calls : List Call) :
    Ascending (run p newConnIDManager calls).queue ∧
      (run p newConnIDManager calls).queue.length ≤ p.MaxActiveConnectionIDs :=
  run_invariant p calls newConnIDManager
    ⟨List.Pairwise.nil, Nat.zero_le _⟩

end quic

/-! ## Theorems on the connection-ID manager -/

namespace quic

/-- Claim C1: if the queue is strictly ascending by sequence number before `Add(f)`, it is
strictly ascending after the call, whatever the call returns, and so holds no two entries
with the same sequence number. -/
theorem Add_keeps_queue_strictly_ascending (p : protocol.Params) (h : connIDManager)
    (f : wire.NewConnectionIDFrame) (hq : Ascending h.queue) :
    Ascending (h.Add p f).2.queue ∧
      ((h.Add p f).2.queue.map (fun e => e.SequenceNumber)).Nodup := by
  have ha := Add_ascending p h f hq
  refine ⟨ha, ?_⟩
  unfold List.Nodup
  rw [List.pairwise_map]
  exact List.Pairwise.imp (fun hab => Nat.ne_of_lt hab) ha

theorem Add_keeps_queue_strictly_ascending_witness :
    Ascending (connIDManager.Add ⟨4, 10000, .nil⟩
        ⟨[sampleEntry 1 1, sampleEntry 2 2, sampleEntry 5 5], false, 0, []⟩
        (sampleFrame 3 2 3)).2.queue ∧
      ((connIDManager.Add ⟨4, 10000, .nil⟩
        ⟨[sampleEntry 1 1, sampleEntry 2 2, sampleEntry 5 5], false, 0, []⟩
        (sampleFrame 3 2 3)).2.queue.map (fun e => e.SequenceNumber)).Nodup :=
  Add_keeps_queue_strictly_ascending ⟨4, 10000, .nil⟩
    ⟨[sampleEntry 1 1, sampleEntry 2 2, sampleEntry 5 5], false, 0, []⟩
    (sampleFrame 3 2 3) (by decide)

/-- Claim C2: from a fresh manager, after any sequence of `Add`, `SentPacket` and
`MaybeGetNewConnID` calls the queue holds at most `MaxActiveConnectionIDs` entries; and
for every state whose queue holds at most that many entries, so does the queue after
`Add(f)`. -/
theorem queue_length_never_exceeds_limit (p : protocol.Params) :
    (∀ calls : List Call,
      (run p newConnIDManager calls).queue.length ≤ p.MaxActiveConnectionIDs) ∧
    (∀ (h : connIDManager) (f : wire.NewConnectionIDFrame),
      h.queue.length ≤ p.MaxActiveConnectionIDs →
        (h.Add p f).2.queue.length ≤ p.MaxActiveConnectionIDs) :=
  ⟨fun calls => (run_new_invariant p calls).2, fun h f hl => Add_length p h f hl⟩

theorem queue_length_never_exceeds_limit_witness :
    (connIDManager.Add ⟨2, 10000, .nil⟩
      ⟨[sampleEntry 1 1, sampleEntry 2 2], false, 0, []⟩
      (sampleFrame 3 0 3)).2.queue.length ≤ 2 :=
  (queue_length_never_exceeds_limit ⟨2, 10000, .nil⟩).2
    ⟨[sampleEntry 1 1, sampleEntry 2 2], false, 0, []⟩ (sampleFrame 3 0 3) (by decide)

/-- Claim C3, the code at its failing input: with the `container/list` behaviour of
`Next()` on a removed element, `Add` of a frame with Retire Prior To 3 to the queue
1, 2, 3 retires entry 1 only; entry 2, whose sequence number is below 3, stays queued and
no RETIRE_CONNECTION_ID frame is sent for it. -/
theorem Add_retires_only_the_front_entry :
    connIDManager.Add ⟨4, 10000, .nil⟩
        ⟨[sampleEntry 1 1, sampleEntry 2 2, sampleEntry 3 3], false, 0, []⟩
        (sampleFrame 9 3 9) =
      (.nil, ⟨[sampleEntry 2 2, sampleEntry 3 3, sampleEntry 9 9], false, 0, [⟨1⟩]⟩) := by
  decide

/-- Claim C4, as stated, fails: the queue holds entry 1, the frame carries sequence
number 1 with another connection ID and another token, and Retire Prior To 2; the sweep
retires the queued entry before the comparison and `Add` returns nil, for either
behaviour of the list iterator. -/
theorem Add_accepts_conflicting_frame_after_retirement :
    sampleEntry 1 1 ∈ (⟨[sampleEntry 1 1], false, 0, []⟩ : connIDManager).queue ∧
      (sampleEntry 1 1).SequenceNumber = (sampleFrame 1 2 7).SequenceNumber ∧
      (sampleEntry 1 1).ConnectionID ≠ (sampleFrame 1 2 7).ConnectionID ∧
      (sampleEntry 1 1).StatelessResetToken ≠ (sampleFrame 1 2 7).StatelessResetToken ∧
      connIDManager.Add ⟨4, 10000, .nil⟩ ⟨[sampleEntry 1 1], false, 0, []⟩ (sampleFrame 1 2 7) =
        (.nil, ⟨[sampleEntry 1 7], false, 0, [⟨1⟩]⟩) ∧
      connIDManager.Add ⟨4, 10000, .successor⟩ ⟨[sampleEntry 1 1], false, 0, []⟩
          (sampleFrame 1 2 7) =
        (.nil, ⟨[sampleEntry 1 7], false, 0, [⟨1⟩]⟩) := by
  decide

/-- Claim C4, amended: if the queue is strictly ascending and holds an entry with the
sequence number of the frame `f`, whose connection ID or stateless reset token differs
from that entry's, and `f.RetirePriorTo` is at most `f.SequenceNumber`, then `Add(f)`
returns an error: the connection-ID error if the connection IDs differ, else the
reset-token error. -/
theorem Add_conflicting_frame_returns_error (p : protocol.Params) (h : connIDManager)
    (f : wire.NewConnectionIDFrame) (e : utils.NewConnectionID) (hq : Ascending h.queue)
    (he : e ∈ h.queue) (hs : e.SequenceNumber = f.SequenceNumber)
    (hr : f.RetirePriorTo ≤ f.SequenceNumber)
    (hd : e.ConnectionID ≠ f.ConnectionID ∨
      e.StatelessResetToken ≠ f.StatelessResetToken) :
    (h.Add p f).1.isError = true ∧
      (h.Add p f).1 =
        (if e.ConnectionID ≠ f.ConnectionID then
          .conflictingConnectionIDs f.SequenceNumber
        else .conflictingStatelessResetTokens f.SequenceNumber) := by
  have ha := add_of_mem p h f e hq he hs hr
  unfold connIDManager.Add
  simp only [ha]
  by_cases hc : e.ConnectionID = f.ConnectionID
  · have ht : e.StatelessResetToken ≠ f.StatelessResetToken := by
      rcases hd with hd | hd
      · exact absurd hc hd
      · exact hd
    simp [hc, ht, Result.isError]
  · simp [hc, Result.isError]

theorem Add_conflicting_frame_returns_error_witness :
    (connIDManager.Add ⟨4, 10000, .nil⟩
        ⟨[sampleEntry 1 1, sampleEntry 2 2, sampleEntry 5 5], true, 3, []⟩
        (sampleFrame 2 2 7)).1.isError = true ∧
      (connIDManager.Add ⟨4, 10000, .nil⟩
        ⟨[sampleEntry 1 1, sampleEntry 2 2, sampleEntry 5 5], true, 3, []⟩
        (sampleFrame 2 2 7)).1 =
        (if (sampleEntry 2 2).ConnectionID ≠ (sampleFrame 2 2 7).ConnectionID then
          .conflictingConnectionIDs (sampleFrame 2 2 7).SequenceNumber
        else .conflictingStatelessResetTokens (sampleFrame 2 2 7).SequenceNumber) :=
  Add_conflicting_frame_returns_error ⟨4, 10000, .nil⟩
    ⟨[sampleEntry 1 1, sampleEntry 2 2, sampleEntry 5 5], true, 3, []⟩
    (sampleFrame 2 2 7) (sampleEntry 2 2) (by decide) (by decide) (by decide) (by decide)
    (by decide)

/-- Claim C5, as stated, fails: the queue holds entries 1 and 2 and the frame carries
sequence number 2 with another connection ID and Retire Prior To 2; `Add` returns the
connection-ID error, and entry 1 has left the queue, for either behaviour of the list
iterator. -/
theorem Add_error_after_retirement_changes_queue :
    connIDManager.Add ⟨4, 10000, .nil⟩ ⟨[sampleEntry 1 1, sampleEntry 2 2], false, 0, []⟩
        (sampleFrame 2 2 7) =
      (.conflictingConnectionIDs 2, ⟨[sampleEntry 2 2], false, 0, [⟨1⟩]⟩) ∧
    connIDManager.Add ⟨4, 10000, .successor⟩
        ⟨[sampleEntry 1 1, sampleEntry 2 2], false, 0, []⟩ (sampleFrame 2 2 7) =
      (.conflictingConnectionIDs 2, ⟨[sampleEntry 2 2], false, 0, [⟨1⟩]⟩) ∧
    (Result.conflictingConnectionIDs 2).isError = true ∧
    [sampleEntry 2 2] ≠ [sampleEntry 1 1, sampleEntry 2 2] := by
  decide

/-- Claim C5, amended: if `Add(f)` returns an error, the queue before the call is a run
of front entries with sequence numbers below `f.RetirePriorTo`, each named by one
RETIRE_CONNECTION_ID frame sent during the call, followed by the queue after the call:
nothing is inserted and the order is kept. If no queued entry has a sequence number below
`f.RetirePriorTo`, the manager after the call is the manager before it. -/
theorem Add_error_leaves_queue_after_retirement (p : protocol.Params) (h : connIDManager)
    (f : wire.NewConnectionIDFrame) (herr : (h.Add p f).1.isError = true) :
    (∃ swept, h.queue = swept ++ (h.Add p f).2.queue ∧
      (∀ x ∈ swept, x.SequenceNumber < f.RetirePriorTo) ∧
      (h.Add p f).2.queueControlFrame = h.queueControlFrame ++ swept.map retireFrameOf) ∧
    ((∀ x ∈ h.queue, f.RetirePriorTo ≤ x.SequenceNumber) → (h.Add p f).2 = h) := by
  have hne := add_not_nil_of_Add_error p h f herr
  rw [Add_of_add_not_nil p h f hne, add_not_nil p h f hne]
  constructor
  · obtain ⟨sw, h1, h2, h3⟩ := retireLoop_split p.removedNext f.RetirePriorTo h.queue
    exact ⟨sw, h1, h3, by simp only [h2]⟩
  · intro hall
    rw [retireLoop_of_le _ _ _ hall]
    simp

theorem Add_error_leaves_queue_after_retirement_witness :
    (∃ swept,
      (⟨[sampleEntry 1 1, sampleEntry 2 2, sampleEntry 5 5], true, 3, []⟩ :
          connIDManager).queue =
        swept ++ (connIDManager.Add ⟨4, 10000, .nil⟩
          ⟨[sampleEntry 1 1, sampleEntry 2 2, sampleEntry 5 5], true, 3, []⟩
          (sampleFrame 5 2 7)).2.queue ∧
      (∀ x ∈ swept, x.SequenceNumber < (sampleFrame 5 2 7).RetirePriorTo) ∧
      (connIDManager.Add ⟨4, 10000, .nil⟩
          ⟨[sampleEntry 1 1, sampleEntry 2 2, sampleEntry 5 5], true, 3, []⟩
          (sampleFrame 5 2 7)).2.queueControlFrame =
        (⟨[sampleEntry 1 1, sampleEntry 2 2, sampleEntry 5 5], true, 3, []⟩ :
          connIDManager).queueControlFrame ++ swept.map retireFrameOf) ∧
    ((∀ x ∈ (⟨[sampleEntry 1 1, sampleEntry 2 2, sampleEntry 5 5], true, 3, []⟩ :
          connIDManager).queue, (sampleFrame 5 2 7).RetirePriorTo ≤ x.SequenceNumber) →
      (connIDManager.Add ⟨4, 10000, .nil⟩
          ⟨[sampleEntry 1 1, sampleEntry 2 2, sampleEntry 5 5], true, 3, []⟩
          (sampleFrame 5 2 7)).2 =
        ⟨[sampleEntry 1 1, sampleEntry 2 2, sampleEntry 5 5], true, 3, []⟩) :=
  Add_error_leaves_queue_after_retirement ⟨4, 10000, .nil⟩
    ⟨[sampleEntry 1 1, sampleEntry 2 2, sampleEntry 5 5], true, 3, []⟩
    (sampleFrame 5 2 7) (by decide)

/-- Claim C6, as stated, fails: after `Add` of the frames 2, 3, 4, 5 to a fresh manager
with limit 4, `Add` of frame 1 returns nil (the entry is inserted at the front and evicted
at once); the same `Add` again returns nil and leaves the queue as it is, but sends one
more RETIRE_CONNECTION_ID frame, for either behaviour of the list iterator. -/
theorem Add_twice_retires_twice :
    (connIDManager.Add ⟨4, 10000, .nil⟩
        (run ⟨4, 10000, .nil⟩ newConnIDManager
          [.Add (sampleFrame 2 0 2), .Add (sampleFrame 3 0 3), .Add (sampleFrame 4 0 4),
            .Add (sampleFrame 5 0 5)])
        (sampleFrame 1 0 1) =
      (.nil, ⟨[sampleEntry 2 2, sampleEntry 3 3, sampleEntry 4 4, sampleEntry 5 5],
        false, 0, [⟨1⟩]⟩)) ∧
    (connIDManager.Add ⟨4, 10000, .nil⟩
        ⟨[sampleEntry 2 2, sampleEntry 3 3, sampleEntry 4 4, sampleEntry 5 5],
          false, 0, [⟨1⟩]⟩
        (sampleFrame 1 0 1) =
      (.nil, ⟨[sampleEntry 2 2, sampleEntry 3 3, sampleEntry 4 4, sampleEntry 5 5],
        false, 0, [⟨1⟩, ⟨1⟩]⟩)) ∧
    (connIDManager.Add ⟨4, 10000, .successor⟩
        (run ⟨4, 10000, .successor⟩ newConnIDManager
          [.Add (sampleFrame 2 0 2), .Add (sampleFrame 3 0 3), .Add (sampleFrame 4 0 4),
            .Add (sampleFrame 5 0 5)])
        (sampleFrame 1 0 1) =
      (.nil, ⟨[sampleEntry 2 2, sampleEntry 3 3, sampleEntry 4 4, sampleEntry 5 5],
        false, 0, [⟨1⟩]⟩)) ∧
    (connIDManager.Add ⟨4, 10000, .successor⟩
        ⟨[sampleEntry 2 2, sampleEntry 3 3, sampleEntry 4 4, sampleEntry 5 5],
          false, 0, [⟨1⟩]⟩
        (sampleFrame 1 0 1) =
      (.nil, ⟨[sampleEntry 2 2, sampleEntry 3 3, sampleEntry 4 4, sampleEntry 5 5],
        false, 0, [⟨1⟩, ⟨1⟩]⟩)) := by
  decide

/-- Claim C6, amended: for every manager state reached from the fresh manager and every
frame `f`, if `Add(f)` returns nil and afterwards the queue holds the entry of `f` and no
entry with a sequence number below `f.RetirePriorTo`, then an immediately following
`Add(f)` returns nil and leaves the manager as it is: the same queue, and no
RETIRE_CONNECTION_ID frame sent. -/
theorem Add_again_is_noop (p : protocol.Params) (calls : List Call)
    (f : wire.NewConnectionIDFrame)
    (_hnil : ((run p newConnIDManager calls).Add p f).1 = .nil)
    (hin : entryOf f ∈ ((run p newConnIDManager calls).Add p f).2.queue)
    (hge : ∀ x ∈ ((run p newConnIDManager calls).Add p f).2.queue,
      f.RetirePriorTo ≤ x.SequenceNumber) :
    (((run p newConnIDManager calls).Add p f).2.Add p f) =
      (.nil, ((run p newConnIDManager calls).Add p f).2) := by
  have hinv := run_new_invariant p (calls ++ [.Add f])
  rw [run_append] at hinv
  simp only [step] at hinv
  generalize ((run p newConnIDManager calls).Add p f).2 = h1 at hin hge hinv
  have hr : f.RetirePriorTo ≤ f.SequenceNumber := hge _ hin
  have ha := add_of_mem p h1 f (entryOf f) hinv.1 hin rfl hr
  rw [retireLoop_of_le _ _ _ hge] at ha
  simp only [entryOf, ne_eq, not_true_eq_false, if_false, List.append_nil] at ha
  have ha' : h1.add p f = (.nil, h1) := ha
  have hl : (h1.add p f).2.queue.length ≤ p.MaxActiveConnectionIDs := by
    rw [ha']
    exact hinv.2
  rw [Add_of_add_nil p h1 f (by rw [ha']) hl, ha']

theorem Add_again_is_noop_witness :
    ((run ⟨4, 10000, .nil⟩ newConnIDManager
          [.Add (sampleFrame 1 0 1), .SentPacket, .Add (sampleFrame 3 0 3)]).Add
        ⟨4, 10000, .nil⟩ (sampleFrame 2 1 2)).2.Add ⟨4, 10000, .nil⟩ (sampleFrame 2 1 2) =
      (.nil, ((run ⟨4, 10000, .nil⟩ newConnIDManager
          [.Add (sampleFrame 1 0 1), .SentPacket, .Add (sampleFrame 3 0 3)]).Add
        ⟨4, 10000, .nil⟩ (sampleFrame 2 1 2)).2) :=
  Add_again_is_noop ⟨4, 10000, .nil⟩
    [.Add (sampleFrame 1 0 1), .SentPacket, .Add (sampleFrame 3 0 3)] (sampleFrame 2 1 2)
    (by decide) (by decide) (by decide)

/-- Claim C7: if the queue holds exactly `MaxActiveConnectionIDs` entries, the first of
them `e`, the sequence number of `f` is greater than every queued one and
`f.RetirePriorTo` is at most the sequence number of `e`, then `Add(f)` returns nil, the
queue becomes the old queue without `e` followed by the entry of `f`, and exactly one
RETIRE_CONNECTION_ID frame is sent, which names `e`. The queue need not be sorted for
this. -/
theorem Add_overflow_evicts_front (p : protocol.Params) (h : connIDManager)
    (f : wire.NewConnectionIDFrame) (e : utils.NewConnectionID)
    (rest : List utils.NewConnectionID) (hq : h.queue = e :: rest)
    (hlen : h.queue.length = p.MaxActiveConnectionIDs)
    (hgt : ∀ x ∈ h.queue, x.SequenceNumber < f.SequenceNumber)
    (hr : f.RetirePriorTo ≤ e.SequenceNumber) :
    h.Add p f =
      (.nil, { h with queue := rest ++ [entryOf f],
                      queueControlFrame := h.queueControlFrame ++ [retireFrameOf e] }) := by
  have hsweep : retireLoop p.removedNext f.RetirePriorTo h.queue = (h.queue, []) := by
    rw [hq]
    simp [retireLoop, Nat.not_lt.2 hr]
  have ha : h.add p f = (.nil, { h with queue := h.queue ++ [entryOf f] }) := by
    rw [add_eq, hsweep]
    simp [insertAtEnd_of_lt h.queue f hgt]
  unfold connIDManager.Add
  simp only [ha, ne_eq, not_true_eq_false, if_false]
  have hlong : (h.queue ++ [entryOf f]).length > p.MaxActiveConnectionIDs := by
    simp only [List.length_append, List.length_singleton]
    omega
  rw [if_pos hlong]
  simp [hq, retireFrameOf]

theorem Add_overflow_evicts_front_witness :
    (run ⟨2, 10000, .nil⟩ newConnIDManager
        [.Add (sampleFrame 1 0 1), .Add (sampleFrame 2 0 2)]).Add ⟨2, 10000, .nil⟩
        (sampleFrame 3 0 3) =
      (.nil, { run ⟨2, 10000, .nil⟩ newConnIDManager
                [.Add (sampleFrame 1 0 1), .Add (sampleFrame 2 0 2)] with
        queue := [sampleEntry 2 2] ++ [entryOf (sampleFrame 3 0 3)],
        queueControlFrame :=
          (run ⟨2, 10000, .nil⟩ newConnIDManager
            [.Add (sampleFrame 1 0 1), .Add (sampleFrame 2 0 2)]).queueControlFrame ++
            [retireFrameOf (sampleEntry 1 1)] }) :=
  Add_overflow_evicts_front ⟨2, 10000, .nil⟩
    (run ⟨2, 10000, .nil⟩ newConnIDManager
      [.Add (sampleFrame 1 0 1), .Add (sampleFrame 2 0 2)])
    (sampleFrame 3 0 3) (sampleEntry 1 1) [sampleEntry 2 2] (by decide) (by decide)
    (by decide) (by decide)

/-- Claim C8: `shouldChangeConnID` returns true if `changedAtLeastOnce` is false; if
`changedAtLeastOnce` is true it returns true exactly when twice the queue length exceeds
`MaxActiveConnectionIDs` and `packetsSinceLastChange` exceeds
`PacketsPerConnectionID`. -/
theorem shouldChangeConnID_iff (p : protocol.Params) (h : connIDManager) :
    (h.changedAtLeastOnce = false → h.shouldChangeConnID p = true) ∧
    (h.changedAtLeastOnce = true →
      (h.shouldChangeConnID p = true ↔
        2 * h.queue.length > p.MaxActiveConnectionIDs ∧
          h.packetsSinceLastChange > p.PacketsPerConnectionID)) := by
  unfold connIDManager.shouldChangeConnID
  constructor
  · intro hc
    simp [hc]
  · intro hc
    simp [hc]

/-- Claim C9: `MaybeGetNewConnID` returns a connection ID exactly when
`shouldChangeConnID` holds and the queue is not empty. Then it returns the connection ID
and the token of the front entry, which has the lowest sequence number of a strictly
ascending queue, removes that entry and no other, sets `changedAtLeastOnce` and resets
`packetsSinceLastChange` to 0. Otherwise it returns `(nil, nil)` and leaves the manager
as it is. It never sends a control frame. -/
theorem MaybeGetNewConnID_returns_front (p : protocol.Params) (h : connIDManager) :
    ((h.MaybeGetNewConnID p).1.isSome = true ↔
      (h.shouldChangeConnID p = true ∧ h.queue ≠ [])) ∧
    (∀ (e : utils.NewConnectionID) (rest : List utils.NewConnectionID),
      h.queue = e :: rest → h.shouldChangeConnID p = true →
        h.MaybeGetNewConnID p =
          (some (e.ConnectionID, e.StatelessResetToken),
            { h with queue := rest, changedAtLeastOnce := true,
                     packetsSinceLastChange := 0 }) ∧
        (Ascending h.queue → ∀ x ∈ h.queue, e.SequenceNumber ≤ x.SequenceNumber)) ∧
    (¬ (h.shouldChangeConnID p = true ∧ h.queue ≠ []) → h.MaybeGetNewConnID p = (none, h)) ∧
    (h.MaybeGetNewConnID p).2.queueControlFrame = h.queueControlFrame := by
  have hyes : ∀ (e : utils.NewConnectionID) (rest : List utils.NewConnectionID),
      h.queue = e :: rest → h.shouldChangeConnID p = true →
        h.MaybeGetNewConnID p =
          (some (e.ConnectionID, e.StatelessResetToken),
            { h with queue := rest, changedAtLeastOnce := true,
                     packetsSinceLastChange := 0 }) := by
    intro e rest hq hs
    unfold connIDManager.MaybeGetNewConnID
    simp [hs, hq]
  have hno : ¬ (h.shouldChangeConnID p = true ∧ h.queue ≠ []) →
      h.MaybeGetNewConnID p = (none, h) := by
    intro hn
    unfold connIDManager.MaybeGetNewConnID
    cases hs : h.shouldChangeConnID p with
    | false => simp
    | true =>
      have hq : h.queue = [] := by
        by_contra hc
        exact hn ⟨hs, hc⟩
      simp [hq]
  refine ⟨?_, ?_, hno, ?_⟩
  · constructor
    · intro hsome
      by_contra hn
      rw [hno hn] at hsome
      simp at hsome
    · rintro ⟨hs, hq⟩
      obtain ⟨e, rest, hq'⟩ := List.exists_cons_of_ne_nil hq
      rw [hyes e rest hq' hs]
      rfl
  · intro e rest hq hs
    refine ⟨hyes e rest hq hs, ?_⟩
    intro hasc x hx
    rw [hq] at hasc hx
    rcases List.mem_cons.1 hx with rfl | hx
    · exact le_refl _
    · exact le_of_lt ((List.pairwise_cons.1 hasc).1 x hx)
  · by_cases hc : h.shouldChangeConnID p = true ∧ h.queue ≠ []
    · obtain ⟨e, rest, hq'⟩ := List.exists_cons_of_ne_nil hc.2
      rw [hyes e rest hq' hc.1]
    · rw [hno hc]

end quic

/-! ## Theorems on the DATAGRAM frame codec -/

namespace wire

theorem WriteVarInt_length (i : Nat) (hi : i < 2 ^ 62) :
    ∃ w, (∀ b, utils.WriteVarInt b i = some (b ++ w)) ∧
      utils.VarIntLen i = some w.length ∧ w.length ≤ 8 := by
  unfold utils.WriteVarInt utils.VarIntLen
  split_ifs with h1 h2 h3
  · exact ⟨_, fun _ => rfl, rfl, by simp⟩
  · exact ⟨_, fun _ => rfl, rfl, by simp⟩
  · exact ⟨_, fun _ => rfl, rfl, by simp⟩
  · exact ⟨_, fun _ => rfl, rfl, by simp⟩

/-- Claim C10: for a frame with `FlowID` below `2 ^ 62` and fewer than `2 ^ 62` bytes of
data, with `DataLenPresent` set or not, `Write` returns and appends to the buffer exactly
as many bytes as `Length` gives. -/
theorem Length_eq_bytes_written (f : DatagramFrame) (b : List Nat)
    (hf : f.FlowID < 2 ^ 62) (hd : f.Data.length < 2 ^ 62) :
    ∃ w, f.Write b = some (b ++ w) ∧ f.Length = some w.length := by
  obtain ⟨w1, hw1, hl1, hb1⟩ := WriteVarInt_length f.FlowID hf
  obtain ⟨w2, hw2, hl2, hb2⟩ := WriteVarInt_length f.Data.length hd
  have hd' : f.Data.length < 4611686018427387904 := hd
  unfold DatagramFrame.Write DatagramFrame.Length
  by_cases h0 : f.FlowID = 0 <;> cases hp : f.DataLenPresent
  · refine ⟨0x30 :: f.Data, ?_, ?_⟩
    · simp [h0]
    · simp [h0]
      omega
  · refine ⟨0x31 :: (w2 ++ f.Data), ?_, ?_⟩
    · simp [h0, hw2]
    · simp [h0, hl2]
      omega
  · refine ⟨0x32 :: (w1 ++ f.Data), ?_, ?_⟩
    · simp [h0, hw1]
    · simp [h0, hl1]
      omega
  · refine ⟨0x33 :: (w1 ++ (w2 ++ f.Data)), ?_, ?_⟩
    · simp [h0, hw1, hw2]
    · simp [h0, hl1, hl2]
      omega

theorem Length_eq_bytes_written_witness :
    ∃ w, (⟨16384, true, List.replicate 64 7⟩ : DatagramFrame).Write [1, 2] =
        some ([1, 2] ++ w) ∧
      (⟨16384, true, List.replicate 64 7⟩ : DatagramFrame).Length = some w.length :=
  Length_eq_bytes_written ⟨16384, true, List.replicate 64 7⟩ [1, 2] (by decide)
    (by simp)

end wire

/-! ## Further theorems on the connection-ID manager -/

namespace quic

theorem insertLoop_not_panic (f : wire.NewConnectionIDFrame) (q : List utils.NewConnectionID)
    (hb : ∃ b, b ∈ q ∧ f.SequenceNumber ≤ b.SequenceNumber) :
    (insertLoop f q).1 ≠ .panic := by
  induction q with
  | nil =>
    obtain ⟨b, hb, -⟩ := hb
    simp at hb
  | cons el rest ih =>
    simp only [insertLoop]
    split_ifs with h1 h2 h3 h4
    · simp
    · simp
    · simp
    · simp
    · apply ih
      obtain ⟨b, hmem, hle⟩ := hb
      rcases List.mem_cons.1 hmem with rfl | hr
      · exact absurd hle (by omega)
      · exact ⟨b, hr, hle⟩

theorem add_not_panic (p : protocol.Params) (h : connIDManager)
    (f : wire.NewConnectionIDFrame) : (h.add p f).1 ≠ .panic := by
  rw [add_eq]
  split_ifs with he
  · simp
  · exact insertLoop_not_panic f _ (insertAtEnd_false _ f (by simpa using he))

theorem Add_not_panic (p : protocol.Params) (h : connIDManager)
    (f : wire.NewConnectionIDFrame) : (h.Add p f).1 ≠ .panic := by
  unfold connIDManager.Add
  simp only
  split_ifs with h1 h2
  · exact add_not_panic p h f
  · split
    · simp
    · next heq => rw [heq] at h2; simp at h2
  · simp

/-- Claim C18: for every manager state and every NEW_CONNECTION_ID frame, `add` ends by
returning nil or an error and never reaches the panic of its last line; nor does `Add`
panic. -/
theorem add_never_panics (p : protocol.Params) (h : connIDManager)
    (f : wire.NewConnectionIDFrame) :
    ((h.add p f).1 = .nil ∨ (h.add p f).1.isError = true) ∧ (h.add p f).1 ≠ .panic ∧
      (h.Add p f).1 ≠ .panic := by
  refine ⟨?_, add_not_panic p h f, Add_not_panic p h f⟩
  have hp := add_not_panic p h f
  cases hr : (h.add p f).1 with
  | nil => exact Or.inl rfl
  | conflictingConnectionIDs n => exact Or.inr rfl
  | conflictingStatelessResetTokens n => exact Or.inr rfl
  | panic => exact absurd hr hp

theorem add_keeps_counters (p : protocol.Params) (h : connIDManager)
    (f : wire.NewConnectionIDFrame) :
    (h.add p f).2.changedAtLeastOnce = h.changedAtLeastOnce ∧
      (h.add p f).2.packetsSinceLastChange = h.packetsSinceLastChange := by
  rw [add_eq]
  split_ifs <;> exact ⟨rfl, rfl⟩

theorem Add_keeps_counters (p : protocol.Params) (h : connIDManager)
    (f : wire.NewConnectionIDFrame) :
    (h.Add p f).2.changedAtLeastOnce = h.changedAtLeastOnce ∧
      (h.Add p f).2.packetsSinceLastChange = h.packetsSinceLastChange := by
  have ha := add_keeps_counters p h f
  unfold connIDManager.Add
  simp only
  split_ifs with h1 h2
  · exact ha
  · split
    · exact ha
    · exact ha
  · exact ha

theorem shouldChangeConnID_false (p : protocol.Params) (h : connIDManager)
    (hc : h.changedAtLeastOnce = true)
    (hk : h.packetsSinceLastChange ≤ p.PacketsPerConnectionID) :
    h.shouldChangeConnID p = false := by
  unfold connIDManager.shouldChangeConnID
  simp [hc, Nat.not_lt.2 hk]

theorem MaybeGetNewConnID_of_not_should (p : protocol.Params) (h : connIDManager)
    (hs : h.shouldChangeConnID p = false) : h.MaybeGetNewConnID p = (none, h) := by
  unfold connIDManager.MaybeGetNewConnID
  simp [hs]

theorem MaybeGetNewConnID_some_counters (p : protocol.Params) (h : connIDManager)
    (hsome : (h.MaybeGetNewConnID p).1.isSome = true) :
    (h.MaybeGetNewConnID p).2.changedAtLeastOnce = true ∧
      (h.MaybeGetNewConnID p).2.packetsSinceLastChange = 0 := by
  unfold connIDManager.MaybeGetNewConnID at hsome ⊢
  cases hq : h.queue with
  | nil => simp [hq] at hsome
  | cons val rest =>
    cases hs : h.shouldChangeConnID p with
    | false => simp [hs] at hsome
    | true => simp

theorem run_keeps_rotation_closed (p : protocol.Params) (calls : List Call)
    (h : connIDManager) (k : Nat) (hc : h.changedAtLeastOnce = true)
    (hk : h.packetsSinceLastChange ≤ k)
    (hb : k + sentPackets calls ≤ p.PacketsPerConnectionID) :
    (run p h calls).changedAtLeastOnce = true ∧
      (run p h calls).packetsSinceLastChange ≤ k + sentPackets calls := by
  induction calls generalizing h k with
  | nil => exact ⟨hc, by simpa [run, sentPackets] using hk⟩
  | cons c rest ih =>
    cases c with
    | Add f =>
      have ha := Add_keeps_counters p h f
      simp only [sentPackets] at hb ⊢
      exact ih (h.Add p f).2 k (ha.1.trans hc) (ha.2 ▸ hk) hb
    | SentPacket =>
      simp only [sentPackets] at hb ⊢
      have hstep : (h.SentPacket).packetsSinceLastChange ≤ k + 1 :=
        le_trans (Nat.mod_le _ _) (Nat.succ_le_succ hk)
      have := ih h.SentPacket (k + 1) hc hstep (by omega)
      have hrun : run p h (.SentPacket :: rest) = run p h.SentPacket rest := rfl
      rw [hrun]
      refine ⟨this.1, ?_⟩
      have h2 := this.2
      omega
    | MaybeGetNewConnID =>
      simp only [sentPackets] at hb ⊢
      have hs := shouldChangeConnID_false p h hc (by omega)
      have hm : step p h .MaybeGetNewConnID = h := by
        simp only [step, MaybeGetNewConnID_of_not_should p h hs]
      have := ih h k hc hk hb
      simpa [run, hm] using this

/-- Claim C17: after a `MaybeGetNewConnID` that returned a connection ID, for every
following sequence of calls of `Add`, `SentPacket` and `MaybeGetNewConnID` with at most
`PacketsPerConnectionID` calls of `SentPacket`, `shouldChangeConnID` is false and
`MaybeGetNewConnID` returns `(nil, nil)` and changes nothing, however full the queue
is. -/
theorem no_rotation_within_packet_budget (p : protocol.Params) (h : connIDManager)
    (calls : List Call) (hsome : (h.MaybeGetNewConnID p).1.isSome = true)
    (hk : sentPackets calls ≤ p.PacketsPerConnectionID) :
    (run p (h.MaybeGetNewConnID p).2 calls).shouldChangeConnID p = false ∧
      (run p (h.MaybeGetNewConnID p).2 calls).MaybeGetNewConnID p =
        (none, run p (h.MaybeGetNewConnID p).2 calls) := by
  have h0 := MaybeGetNewConnID_some_counters p h hsome
  have hinv := run_keeps_rotation_closed p calls (h.MaybeGetNewConnID p).2 0 h0.1
    (le_of_eq h0.2) (by omega)
  have hs := shouldChangeConnID_false p _ hinv.1 (by omega)
  exact ⟨hs, MaybeGetNewConnID_of_not_should p _ hs⟩

theorem no_rotation_within_packet_budget_witness :
    (run ⟨4, 2, .nil⟩
        ((⟨[sampleEntry 1 1], false, 0, []⟩ : connIDManager).MaybeGetNewConnID
          ⟨4, 2, .nil⟩).2
        [.Add (sampleFrame 2 0 2), .SentPacket, .Add (sampleFrame 3 0 3),
          .Add (sampleFrame 4 0 4), .SentPacket, .Add (sampleFrame 5 0 5)]).shouldChangeConnID
        ⟨4, 2, .nil⟩ = false ∧
      (run ⟨4, 2, .nil⟩
        ((⟨[sampleEntry 1 1], false, 0, []⟩ : connIDManager).MaybeGetNewConnID
          ⟨4, 2, .nil⟩).2
        [.Add (sampleFrame 2 0 2), .SentPacket, .Add (sampleFrame 3 0 3),
          .Add (sampleFrame 4 0 4), .SentPacket, .Add (sampleFrame 5 0 5)]).MaybeGetNewConnID
        ⟨4, 2, .nil⟩ =
        (none, run ⟨4, 2, .nil⟩
          ((⟨[sampleEntry 1 1], false, 0, []⟩ : connIDManager).MaybeGetNewConnID
            ⟨4, 2, .nil⟩).2
          [.Add (sampleFrame 2 0 2), .SentPacket, .Add (sampleFrame 3 0 3),
            .Add (sampleFrame 4 0 4), .SentPacket, .Add (sampleFrame 5 0 5)]) :=
  no_rotation_within_packet_budget ⟨4, 2, .nil⟩ ⟨[sampleEntry 1 1], false, 0, []⟩
    [.Add (sampleFrame 2 0 2), .SentPacket, .Add (sampleFrame 3 0 3),
      .Add (sampleFrame 4 0 4), .SentPacket, .Add (sampleFrame 5 0 5)]
    (by decide) (by decide)

/-- Claim C19, as stated, fails: at the counter value `2 ^ 64 - 1` the increment of
`SentPacket` wraps to 0, where a saturating increment gives `2 ^ 64 - 1`. -/
theorem SentPacket_wraps_at_max :
    (connIDManager.SentPacket ⟨[sampleEntry 1 1], true, 2 ^ 64 - 1, []⟩).packetsSinceLastChange
        = 0 ∧
      min (2 ^ 64 - 1 + 1) (2 ^ 64 - 1) ≠
        (connIDManager.SentPacket
          ⟨[sampleEntry 1 1], true, 2 ^ 64 - 1, []⟩).packetsSinceLastChange := by
  decide

/-- Claim C19, amended: `SentPacket` is the wrapping increment of the 64-bit packet
counter: from a counter value `c` below `2 ^ 64 - 1` the counter becomes `c + 1`, from
`2 ^ 64 - 1` it becomes 0; the queue, `changedAtLeastOnce` and the frames sent are
unchanged. -/
theorem SentPacket_increments_and_wraps (h : connIDManager)
    (hc : h.packetsSinceLastChange < 2 ^ 64) :
    h.SentPacket.packetsSinceLastChange =
        (if h.packetsSinceLastChange = 2 ^ 64 - 1 then 0 else h.packetsSinceLastChange + 1) ∧
      h.SentPacket.queue = h.queue ∧
      h.SentPacket.changedAtLeastOnce = h.changedAtLeastOnce ∧
      h.SentPacket.queueControlFrame = h.queueControlFrame := by
  refine ⟨?_, rfl, rfl, rfl⟩
  simp only [connIDManager.SentPacket]
  split_ifs with h1
  · rw [h1]
    decide
  · exact Nat.mod_eq_of_lt (by omega)

theorem SentPacket_increments_and_wraps_witness :
    (connIDManager.SentPacket ⟨[sampleEntry 1 1], true, 41, []⟩).packetsSinceLastChange =
        (if (41 : Nat) = 2 ^ 64 - 1 then 0 else 41 + 1) ∧
      (connIDManager.SentPacket ⟨[sampleEntry 1 1], true, 41, []⟩).queue =
        [sampleEntry 1 1] ∧
      (connIDManager.SentPacket ⟨[sampleEntry 1 1], true, 41, []⟩).changedAtLeastOnce =
        true ∧
      (connIDManager.SentPacket ⟨[sampleEntry 1 1], true, 41, []⟩).queueControlFrame = [] :=
  SentPacket_increments_and_wraps ⟨[sampleEntry 1 1], true, 41, []⟩ (by decide)

theorem mem_seqNums_cons (e : utils.NewConnectionID) (q : List utils.NewConnectionID)
    (x : Nat) : x ∈ seqNums (e :: q) ↔ (x = e.SequenceNumber ∨ x ∈ seqNums q) := by
  simp [seqNums]

theorem mem_seqNums_append (q1 q2 : List utils.NewConnectionID) (x : Nat) :
    x ∈ seqNums (q1 ++ q2) ↔ (x ∈ seqNums q1 ∨ x ∈ seqNums q2) := by
  simp [seqNums]

theorem insertLoop_seqNums (f : wire.NewConnectionIDFrame) (q : List utils.NewConnectionID)
    (hb : ∃ b, b ∈ q ∧ f.SequenceNumber ≤ b.SequenceNumber) (x : Nat) :
    x ∈ seqNums (insertLoop f q).2 ↔ (x ∈ seqNums q ∨ x = f.SequenceNumber) := by
  induction q with
  | nil =>
    obtain ⟨b, hb, -⟩ := hb
    simp at hb
  | cons el rest ih =>
    have hsame : el.SequenceNumber = f.SequenceNumber →
        (x ∈ seqNums (el :: rest) ↔ (x ∈ seqNums (el :: rest) ∨ x = f.SequenceNumber)) := by
      intro h1
      constructor
      · exact Or.inl
      · rintro (h | h)
        · exact h
        · rw [h, ← h1]
          simp [seqNums]
    simp only [insertLoop]
    split_ifs with h1 h2 h3 h4
    · exact hsame h1
    · exact hsame h1
    · exact hsame h1
    · rw [mem_seqNums_cons (entryOf f)]
      simp only [entryOf]
      exact or_comm
    · have hrest : ∃ b, b ∈ rest ∧ f.SequenceNumber ≤ b.SequenceNumber := by
        obtain ⟨b, hmem, hle⟩ := hb
        rcases List.mem_cons.1 hmem with rfl | hr
        · exact absurd hle (by omega)
        · exact ⟨b, hr, hle⟩
      rw [mem_seqNums_cons, mem_seqNums_cons, ih hrest, or_assoc]

theorem add_accounts (p : protocol.Params) (h : connIDManager)
    (f : wire.NewConnectionIDFrame) :
    ∃ emitted, (h.add p f).2.queueControlFrame = h.queueControlFrame ++ emitted ∧
      ∀ x, (x ∈ seqNums h.queue ∨ x = f.SequenceNumber) ↔
        (x ∈ seqNums (h.add p f).2.queue ∨ x ∈ retiredNums emitted) := by
  obtain ⟨sw, h1, h2, -⟩ := retireLoop_split p.removedNext f.RetirePriorTo h.queue
  have hret : retiredNums (retireLoop p.removedNext f.RetirePriorTo h.queue).2 = seqNums sw := by
    rw [h2]
    simp [retiredNums, seqNums, retireFrameOf]
  have hsplit : ∀ x, x ∈ seqNums h.queue ↔
      (x ∈ seqNums sw ∨ x ∈ seqNums (retireLoop p.removedNext f.RetirePriorTo h.queue).1) := by
    intro x
    conv_lhs => rw [h1]
    exact mem_seqNums_append _ _ x
  refine ⟨(retireLoop p.removedNext f.RetirePriorTo h.queue).2, ?_, ?_⟩
  · rw [add_eq]
    split_ifs <;> rfl
  · intro x
    rw [hret, hsplit x, add_eq]
    split_ifs with he
    · have hlast : x ∈ seqNums [entryOf f] ↔ x = f.SequenceNumber := by
        simp [seqNums, entryOf]
      simp only
      rw [mem_seqNums_append, hlast]
      generalize (x ∈ seqNums sw) = A
      generalize (x ∈ seqNums (retireLoop p.removedNext f.RetirePriorTo h.queue).1) = B
      generalize (x = f.SequenceNumber) = C
      tauto
    · have := insertLoop_seqNums f _ (insertAtEnd_false _ f (by simpa using he)) x
      simp only
      rw [this]
      generalize (x ∈ seqNums sw) = A
      generalize (x ∈ seqNums (retireLoop p.removedNext f.RetirePriorTo h.queue).1) = B
      generalize (x = f.SequenceNumber) = C
      tauto

/-- Claim C20: `Add` never drops an entry silently. For every manager state and every
frame `f`, whatever `Add(f)` returns, the frames sent during the call are appended to
those sent before, and a number is a sequence number of the queue before the call or that
of `f` exactly if it is a sequence number of the queue after the call or carried by a
RETIRE_CONNECTION_ID frame sent during the call. The queue need not be sorted for
this. -/
theorem Add_accounts_for_every_sequence_number (p : protocol.Params) (h : connIDManager)
    (f : wire.NewConnectionIDFrame) :
    ∃ emitted, (h.Add p f).2.queueControlFrame = h.queueControlFrame ++ emitted ∧
      ∀ x, (x ∈ seqNums h.queue ∨ x = f.SequenceNumber) ↔
        (x ∈ seqNums (h.Add p f).2.queue ∨ x ∈ retiredNums emitted) := by
  obtain ⟨em, hem, hx⟩ := add_accounts p h f
  unfold connIDManager.Add
  simp only
  split_ifs with h1 h2
  · exact ⟨em, hem, hx⟩
  · split
    · next val rest heq =>
      refine ⟨em ++ [⟨val.SequenceNumber⟩], ?_, ?_⟩
      · simp only [hem, List.append_assoc]
      · intro x
        have hlast : x ∈ retiredNums (em ++ [⟨val.SequenceNumber⟩]) ↔
            (x ∈ retiredNums em ∨ x = val.SequenceNumber) := by
          simp [retiredNums]
        rw [hx x, heq, mem_seqNums_cons, hlast]
        generalize (x ∈ seqNums rest) = A
        generalize (x ∈ retiredNums em) = B
        generalize (x = val.SequenceNumber) = C
        tauto
    · exact ⟨em, hem, hx⟩
  · exact ⟨em, hem, hx⟩

end quic

/-! ## Further theorems on the DATAGRAM frame codec -/

namespace wire

theorem firstByte_bits :
    ∀ x, x < 64 →
      ((x &&& 192) >>> 6 = 0 ∧ x &&& 63 = x) ∧
      (((x ||| 64) &&& 192) >>> 6 = 1 ∧ (x ||| 64) &&& 63 = x) ∧
      (((x ||| 128) &&& 192) >>> 6 = 2 ∧ (x ||| 128) &&& 63 = x) ∧
      (((x ||| 192) &&& 192) >>> 6 = 3 ∧ (x ||| 192) &&& 63 = x) := by
  decide

theorem WriteVarInt_eq (b : List Nat) (i : Nat) (hi : i < 2 ^ 62) :
    utils.WriteVarInt b i = some (b ++ varIntBytes i) := by
  unfold varIntBytes utils.WriteVarInt
  split_ifs <;> simp

theorem VarIntLen_eq (i : Nat) (hi : i < 2 ^ 62) :
    utils.VarIntLen i = some (varIntBytes i).length := by
  unfold varIntBytes utils.WriteVarInt utils.VarIntLen
  split_ifs <;> simp

theorem ReadVarInt_varIntBytes (i : Nat) (hi : i < 2 ^ 62) (rest : List Nat) :
    utils.ReadVarInt (varIntBytes i ++ rest) = .ok (i, rest) := by
  unfold varIntBytes utils.WriteVarInt
  split_ifs with h1 h2 h3
  · have hb := (firstByte_bits i h1).1
    simp [utils.ReadVarInt, hb.1, hb.2]
  · have hx : (i >>> 8) % 256 < 64 := by
      rw [Nat.shiftRight_eq_div_pow]
      omega
    have hb := (firstByte_bits _ hx).2.1
    simp only [Option.getD_some, List.nil_append, List.cons_append, utils.ReadVarInt,
      Nat.reduceSub, hb.1, hb.2, Nat.reduceShiftLeft, Nat.reduceEqDiff, if_false, if_true]
    simp only [Nat.shiftLeft_eq, Nat.shiftRight_eq_div_pow]
    congr 2
    omega
  · have hx : (i >>> 24) % 256 < 64 := by
      rw [Nat.shiftRight_eq_div_pow]
      omega
    have hb := (firstByte_bits _ hx).2.2.1
    simp only [Option.getD_some, List.nil_append, List.cons_append, utils.ReadVarInt,
      Nat.reduceSub, hb.1, hb.2, Nat.reduceShiftLeft, Nat.reduceEqDiff, if_false, if_true]
    simp only [Nat.shiftLeft_eq, Nat.shiftRight_eq_div_pow]
    congr 2
    omega
  · have hx : (i >>> 56) % 256 < 64 := by
      rw [Nat.shiftRight_eq_div_pow]
      omega
    have hb := (firstByte_bits _ hx).2.2.2
    simp only [Option.getD_some, List.nil_append, List.cons_append, utils.ReadVarInt,
      Nat.reduceSub, hb.1, hb.2, Nat.reduceShiftLeft, Nat.reduceEqDiff, if_false, if_true]
    simp only [Nat.shiftLeft_eq, Nat.shiftRight_eq_div_pow]
    congr 2
    omega

theorem ReadFull_all (data : List Nat) : io.ReadFull data data.length = .ok (data, []) := by
  cases data with
  | nil => rfl
  | cons a rest => simp [io.ReadFull]

theorem Write_eq (f : DatagramFrame) (b : List Nat) (hf : f.FlowID < 2 ^ 62)
    (hd : f.DataLenPresent = true → f.Data.length < 2 ^ 62) :
    f.Write b =
      some (b ++ [0x30 + (if f.DataLenPresent then 1 else 0) + (if f.FlowID ≠ 0 then 2 else 0)]
        ++ (if f.FlowID ≠ 0 then varIntBytes f.FlowID else [])
        ++ (if f.DataLenPresent then varIntBytes f.Data.length else []) ++ f.Data) := by
  unfold DatagramFrame.Write
  by_cases h0 : f.FlowID = 0 <;> cases hp : f.DataLenPresent
  · simp [h0]
  · simp [h0, WriteVarInt_eq _ _ (hd hp)]
  · simp [h0, WriteVarInt_eq _ _ hf]
  · simp [h0, WriteVarInt_eq _ _ hf, WriteVarInt_eq _ _ (hd hp)]

/-- Claim C16: for a frame with `FlowID` below `2 ^ 62` and fewer than `2 ^ 62` bytes of
data, `Write` returns (with the nil error) and appends to the buffer exactly one type byte
`t`, which is 0x30 with bit 0 set if and only if `DataLenPresent` and bit 1 set if and
only if `FlowID` is not 0, then the variable-length integer `FlowID` if it is not 0, then
the variable-length integer `len(Data)` if `DataLenPresent`, then the bytes of `Data`. -/
theorem Write_appends_type_flowID_length_data (f : DatagramFrame) (b : List Nat)
    (hf : f.FlowID < 2 ^ 62) (hd : f.Data.length < 2 ^ 62) :
    ∃ t, f.Write b =
        some (b ++ [t] ++ (if f.FlowID ≠ 0 then varIntBytes f.FlowID else [])
          ++ (if f.DataLenPresent then varIntBytes f.Data.length else []) ++ f.Data) ∧
      t &&& 0xfc = 0x30 ∧ (t &&& 0x1 = 0x1 ↔ f.DataLenPresent = true) ∧
      (t &&& 0x2 = 0x2 ↔ f.FlowID ≠ 0) := by
  refine ⟨_, Write_eq f b hf (fun _ => hd), ?_⟩
  by_cases h0 : f.FlowID = 0 <;> cases hp : f.DataLenPresent <;> simp [h0] <;> decide

theorem Write_appends_type_flowID_length_data_witness :
    ∃ t, (⟨16384, true, [7, 8, 9]⟩ : DatagramFrame).Write [1, 2] =
        some ([1, 2] ++ [t] ++
          (if (⟨16384, true, [7, 8, 9]⟩ : DatagramFrame).FlowID ≠ 0 then
            varIntBytes (⟨16384, true, [7, 8, 9]⟩ : DatagramFrame).FlowID else [])
          ++ (if (⟨16384, true, [7, 8, 9]⟩ : DatagramFrame).DataLenPresent then
            varIntBytes (⟨16384, true, [7, 8, 9]⟩ : DatagramFrame).Data.length else [])
          ++ (⟨16384, true, [7, 8, 9]⟩ : DatagramFrame).Data) ∧
      t &&& 0xfc = 0x30 ∧
      (t &&& 0x1 = 0x1 ↔ (⟨16384, true, [7, 8, 9]⟩ : DatagramFrame).DataLenPresent = true) ∧
      (t &&& 0x2 = 0x2 ↔ (⟨16384, true, [7, 8, 9]⟩ : DatagramFrame).FlowID ≠ 0) :=
  Write_appends_type_flowID_length_data ⟨16384, true, [7, 8, 9]⟩ [1, 2] (by decide)
    (by decide)

/-- Claim C11: for a frame with `FlowID` below `2 ^ 62`, zero or not, with
`DataLenPresent` set or not and any data, empty or not (fewer than `2 ^ 62` bytes when the
length is written), `parseDatagramFrame` on exactly the bytes `Write` produces succeeds,
returns the same `FlowID`, `DataLenPresent` and `Data`, and leaves no input. -/
theorem parse_Write_roundtrip (f : DatagramFrame) (hf : f.FlowID < 2 ^ 62)
    (hd : f.DataLenPresent = true → f.Data.length < 2 ^ 62) :
    ∃ w, f.Write [] = some w ∧ parseDatagramFrame w = .ok (f, []) := by
  refine ⟨_, Write_eq f [] hf hd, ?_⟩
  obtain ⟨fid, dlp, data⟩ := f
  simp only at hf hd ⊢
  have b48 : 48 &&& 2 = 0 := by decide
  have b49 : 49 &&& 2 = 0 := by decide
  have b50 : 50 &&& 2 = 2 := by decide
  have b51 : 51 &&& 2 = 2 := by decide
  by_cases h0 : fid = 0 <;> cases dlp
  · subst h0
    simp [parseDatagramFrame, ReadFull_all, b48, bind, Except.bind, Functor.map, Except.map,
      pure, Except.pure]
  · subst h0
    simp [parseDatagramFrame, ReadFull_all, ReadVarInt_varIntBytes _ (hd rfl), b49, bind,
      Except.bind, Functor.map, Except.map, pure, Except.pure]
  · simp [parseDatagramFrame, ReadFull_all, ReadVarInt_varIntBytes _ hf, h0, b50, bind,
      Except.bind, Functor.map, Except.map, pure, Except.pure]
  · simp [parseDatagramFrame, ReadFull_all, ReadVarInt_varIntBytes _ hf,
      ReadVarInt_varIntBytes _ (hd rfl), h0, b51, bind, Except.bind, Functor.map, Except.map,
      pure, Except.pure]

theorem parse_Write_roundtrip_witness :
    ∃ w, (⟨16384, true, [7, 8, 9]⟩ : DatagramFrame).Write [] = some w ∧
      parseDatagramFrame w = .ok (⟨16384, true, [7, 8, 9]⟩, []) :=
  parse_Write_roundtrip ⟨16384, true, [7, 8, 9]⟩ (by decide) (fun _ => by decide)

theorem ReadVarInt_split (r r' : List Nat) (v : Nat)
    (h : utils.ReadVarInt r = .ok (v, r')) : ∃ w, w ≠ [] ∧ r = w ++ r' := by
  unfold utils.ReadVarInt at h
  rcases r with _ | ⟨a, r1⟩
  · simp at h
  · simp only at h
    split_ifs at h with h1 h2 h3
    · simp only [Except.ok.injEq, Prod.mk.injEq] at h
      exact ⟨[a], by simp, by simp [h.2]⟩
    · rcases r1 with _ | ⟨b2, r2⟩
      · simp at h
      · simp only [Except.ok.injEq, Prod.mk.injEq] at h
        exact ⟨[a, b2], by simp, by simp [h.2]⟩
    · rcases r1 with _ | ⟨b2, _ | ⟨b3, _ | ⟨b4, r4⟩⟩⟩
      · simp at h
      · simp at h
      · simp at h
      · simp only [Except.ok.injEq, Prod.mk.injEq] at h
        exact ⟨[a, b2, b3, b4], by simp, by simp [h.2]⟩
    · rcases r1 with _ | ⟨b2, _ | ⟨b3, _ | ⟨b4, _ | ⟨b5, _ | ⟨b6, _ | ⟨b7, _ | ⟨b8, r8⟩⟩⟩⟩⟩⟩⟩
      · simp at h
      · simp at h
      · simp at h
      · simp at h
      · simp at h
      · simp at h
      · simp at h
      · simp only [Except.ok.injEq, Prod.mk.injEq] at h
        exact ⟨[a, b2, b3, b4, b5, b6, b7, b8], by simp, by simp [h.2]⟩

theorem ReadFull_split (r d r' : List Nat) (n : Nat)
    (h : io.ReadFull r n = .ok (d, r')) : r = d ++ r' ∧ d.length = n := by
  unfold io.ReadFull at h
  split_ifs at h with h1 h2 h3
  · simp only [Except.ok.injEq, Prod.mk.injEq] at h
    rw [← h.1, ← h.2, h1]
    simp
  · simp only [Except.ok.injEq, Prod.mk.injEq] at h
    rw [← h.1, ← h.2]
    simp only [List.take_append_drop, List.length_take, true_and]
    omega

theorem parse_cons (t : Nat) (r0 : List Nat) :
    parseDatagramFrame (t :: r0) =
      match (if t &&& 0x2 > 0 then utils.ReadVarInt r0 else .ok (0, r0)) with
      | .error e => .error e
      | .ok (fid, r1) =>
        if t &&& 0x1 > 0 then
          match utils.ReadVarInt r1 with
          | .error e => .error e
          | .ok (len, r2) =>
            if len > r2.length then .error .EOF
            else
              match io.ReadFull r2 len with
              | .error e => .error e
              | .ok (d, r3) => .ok (⟨fid, true, d⟩, r3)
        else
          match io.ReadFull r1 r1.length with
          | .error e => .error e
          | .ok (d, r3) => .ok (⟨fid, false, d⟩, r3) := by
  unfold parseDatagramFrame
  by_cases h2 : t &&& 0x2 > 0 <;> by_cases h1 : t &&& 0x1 > 0
  all_goals
    simp only [h1, h2, if_true, if_false, decide_True, decide_False, bind, Except.bind,
      pure, Except.pure]
  · rcases utils.ReadVarInt r0 with e | ⟨fid, r1⟩
    · rfl
    · simp only
      rcases utils.ReadVarInt r1 with e | ⟨len, r2⟩
      · rfl
      · simp only
        split_ifs
        · rfl
        · rcases io.ReadFull r2 len with e | ⟨d, r3⟩ <;> rfl
  · rcases utils.ReadVarInt r0 with e | ⟨fid, r1⟩
    · rfl
    · simp only [Bool.false_eq_true, if_false]
      rcases io.ReadFull r1 r1.length with e | ⟨d, r3⟩ <;> rfl
  · rcases utils.ReadVarInt r0 with e | ⟨len, r2⟩
    · rfl
    · simp only
      split_ifs
      · rfl
      · rcases io.ReadFull r2 len with e | ⟨d, r3⟩ <;> rfl
  · simp only [Bool.false_eq_true, if_false]
    rcases io.ReadFull r0 r0.length with e | ⟨d, r3⟩ <;> rfl

theorem parse_ok_layout (r : List Nat) (f : DatagramFrame) (rest : List Nat)
    (h : parseDatagramFrame r = .ok (f, rest)) :
    ∃ (t : Nat) (flowID len : List Nat),
      r = t :: (flowID ++ (len ++ (f.Data ++ rest))) ∧
      f.DataLenPresent = decide (t &&& 0x1 > 0) ∧
      (t &&& 0x2 > 0 →
        utils.ReadVarInt (flowID ++ (len ++ (f.Data ++ rest))) =
          .ok (f.FlowID, len ++ (f.Data ++ rest))) ∧
      (¬ t &&& 0x2 > 0 → flowID = [] ∧ f.FlowID = 0) ∧
      (t &&& 0x1 > 0 →
        utils.ReadVarInt (len ++ (f.Data ++ rest)) = .ok (f.Data.length, f.Data ++ rest)) ∧
      (¬ t &&& 0x1 > 0 → len = [] ∧ rest = []) := by
  rcases r with _ | ⟨t, r0⟩
  · simp [parseDatagramFrame] at h
  · rw [parse_cons] at h
    have hflow : ∃ fid r1 w,
        (if t &&& 0x2 > 0 then utils.ReadVarInt r0 else .ok (0, r0)) = .ok (fid, r1) ∧
        r0 = w ++ r1 ∧ (t &&& 0x2 > 0 → utils.ReadVarInt r0 = .ok (fid, r1)) ∧
        (¬ t &&& 0x2 > 0 → w = [] ∧ fid = 0) := by
      by_cases h2 : t &&& 0x2 > 0
      · rcases hA : utils.ReadVarInt r0 with e | ⟨fid, r1⟩
        · simp [h2, hA] at h
        · obtain ⟨w, -, hw⟩ := ReadVarInt_split _ _ _ hA
          exact ⟨fid, r1, w, by rw [if_pos h2], hw, fun _ => rfl, fun hn => absurd h2 hn⟩
      · exact ⟨0, r0, [], by rw [if_neg h2], rfl, fun hp => absurd hp h2, fun _ => ⟨rfl, rfl⟩⟩
    obtain ⟨fid, r1, w, hA, hw, hyes, hno⟩ := hflow
    rw [hA] at h
    simp only at h
    split_ifs at h with h1
    · rcases hB : utils.ReadVarInt r1 with e | ⟨len, r2⟩
      · simp [hB] at h
      · obtain ⟨w2, -, hw2⟩ := ReadVarInt_split _ _ _ hB
        rw [hB] at h
        simp only at h
        split_ifs at h with h3
        rcases hC : io.ReadFull r2 len with e | ⟨d, r3⟩
        · simp [hC] at h
        · rw [hC] at h
          simp only [Except.ok.injEq, Prod.mk.injEq] at h
          obtain ⟨rfl, rfl⟩ := h
          obtain ⟨hd1, hd2⟩ := ReadFull_split _ _ _ _ hC
          subst hd1
          subst hw2
          subst hw
          refine ⟨t, w, w2, rfl, (decide_eq_true h1).symm, hyes, hno, fun _ => ?_,
            fun hn => absurd h1 hn⟩
          simp only [hd2]
          exact hB
    · rcases hC : io.ReadFull r1 r1.length with e | ⟨d, r3⟩
      · simp [hC] at h
      · rw [hC] at h
        simp only [Except.ok.injEq, Prod.mk.injEq] at h
        obtain ⟨rfl, rfl⟩ := h
        obtain ⟨hd1, hd2⟩ := ReadFull_split _ _ _ _ hC
        have hr3 : r3 = [] := by
          have hl := congrArg List.length hd1
          rw [List.length_append] at hl
          exact List.length_eq_zero.1 (by omega)
        subst hr3
        subst hd1
        subst hw
        exact ⟨t, w, [], rfl, (decide_eq_false h1).symm, hyes, hno, fun hp => absurd hp h1,
          fun _ => ⟨rfl, rfl⟩⟩

/-- Claim C15: if the type byte has the length flag (bit 0) set, the flow ID, when its
flag is set, is read, and the length integer read next declares more bytes than are left
behind it, `parseDatagramFrame` returns `io.EOF` and no frame. Whenever
`parseDatagramFrame` succeeds, the input is the header it parsed, then the returned
`Data`, then the bytes left in the reader, where the header is the type byte `t`, the
bytes `flowID` that `utils.ReadVarInt` reads as `FlowID` if bit 1 of `t` is set (no bytes
otherwise), and the bytes `len` that `utils.ReadVarInt` reads as the length of `Data` if
bit 0 of `t` is set (no bytes otherwise, and then no input is left). So `Data` is never
longer than the input behind the header. -/
theorem parse_declared_length_beyond_input :
    (∀ (t : Nat) (r0 r1 r2 : List Nat) (fid len : Nat),
      t &&& 0x1 > 0 →
      (if t &&& 0x2 > 0 then utils.ReadVarInt r0 else .ok (0, r0)) = .ok (fid, r1) →
      utils.ReadVarInt r1 = .ok (len, r2) → len > r2.length →
        parseDatagramFrame (t :: r0) = .error .EOF) ∧
    (∀ (r : List Nat) (f : DatagramFrame) (rest : List Nat),
      parseDatagramFrame r = .ok (f, rest) →
        ∃ (t : Nat) (flowID len : List Nat),
          r = t :: (flowID ++ (len ++ (f.Data ++ rest))) ∧
          f.DataLenPresent = decide (t &&& 0x1 > 0) ∧
          (t &&& 0x2 > 0 →
            utils.ReadVarInt (flowID ++ (len ++ (f.Data ++ rest))) =
              .ok (f.FlowID, len ++ (f.Data ++ rest))) ∧
          (¬ t &&& 0x2 > 0 → flowID = [] ∧ f.FlowID = 0) ∧
          (t &&& 0x1 > 0 →
            utils.ReadVarInt (len ++ (f.Data ++ rest)) =
              .ok (f.Data.length, f.Data ++ rest)) ∧
          (¬ t &&& 0x1 > 0 → len = [] ∧ rest = []) ∧
          f.Data.length + rest.length = r.length - (1 + flowID.length + len.length) ∧
          f.Data.length ≤ r.length - (1 + flowID.length + len.length) ∧
          f.Data.length < r.length) := by
  constructor
  · intro t r0 r1 r2 fid len h1 hA hB hgt
    rw [parse_cons, hA]
    simp only [h1, if_true, hB, hgt]
  · intro r f rest h
    obtain ⟨t, w1, w2, hr, hp, h2y, h2n, h1y, h1n⟩ := parse_ok_layout r f rest h
    have hl : r.length = 1 + w1.length + w2.length + f.Data.length + rest.length := by
      rw [hr]
      simp only [List.length_cons, List.length_append]
      omega
    exact ⟨t, w1, w2, hr, hp, h2y, h2n, h1y, h1n, by omega, by omega, by omega⟩

theorem parse_declared_length_beyond_input_witness :
    parseDatagramFrame (0x33 :: [0x05, 0x04, 1, 2, 3]) = .error .EOF ∧
    (∃ (t : Nat) (flowID len : List Nat),
      [0x33, 0x05, 0x02, 1, 2, 3] = t :: (flowID ++ (len ++ ([1, 2] ++ [3]))) ∧
      true = decide (t &&& 0x1 > 0) ∧
      (t &&& 0x2 > 0 →
        utils.ReadVarInt (flowID ++ (len ++ ([1, 2] ++ [3]))) =
          .ok (5, len ++ ([1, 2] ++ [3]))) ∧
      (¬ t &&& 0x2 > 0 → flowID = [] ∧ 5 = 0) ∧
      (t &&& 0x1 > 0 → utils.ReadVarInt (len ++ ([1, 2] ++ [3])) = .ok (2, [1, 2] ++ [3])) ∧
      (¬ t &&& 0x1 > 0 → len = [] ∧ [3] = []) ∧
      2 + 1 = 6 - (1 + flowID.length + len.length) ∧
      2 ≤ 6 - (1 + flowID.length + len.length) ∧
      2 < 6) :=
  ⟨parse_declared_length_beyond_input.1 0x33 [0x05, 0x04, 1, 2, 3] [0x04, 1, 2, 3]
      [1, 2, 3] 5 4 (by decide) rfl rfl (by decide),
    parse_declared_length_beyond_input.2 [0x33, 0x05, 0x02, 1, 2, 3] ⟨5, true, [1, 2]⟩ [3]
      rfl⟩

theorem VarIntLen_cases (i : Nat) (hi : i < 2 ^ 62) :
    ∃ n, utils.VarIntLen i = some n ∧
      ((i < 64 ∧ n = 1) ∨ (64 ≤ i ∧ i < 16384 ∧ n = 2) ∨
        (16384 ≤ i ∧ i < 1073741824 ∧ n = 4) ∨ (1073741824 ≤ i ∧ n = 8)) := by
  unfold utils.VarIntLen
  split_ifs with h1 h2 h3
  · exact ⟨1, rfl, by omega⟩
  · exact ⟨2, rfl, by omega⟩
  · exact ⟨4, rfl, by omega⟩
  · exact ⟨8, rfl, by omega⟩

theorem headerLen_eq (f : DatagramFrame) (hf : f.FlowID < 2 ^ 62) :
    ∃ k, k ≤ 8 ∧ (f.FlowID ≠ 0 → utils.VarIntLen f.FlowID = some k) ∧
      (f.FlowID = 0 → k = 0) ∧
      f.headerLen = 1 + k + (if f.DataLenPresent then 1 else 0) := by
  obtain ⟨n, hn, h8⟩ := VarIntLen_cases f.FlowID hf
  by_cases h0 : f.FlowID = 0
  · exact ⟨0, by omega, fun h => absurd h0 h, fun _ => rfl, by simp [DatagramFrame.headerLen, h0]⟩
  · exact ⟨n, by omega, fun _ => hn, fun h => absurd h h0,
      by simp [DatagramFrame.headerLen, h0, hn]⟩

theorem MaxDataLen_eq (f : DatagramFrame) (maxSize : Nat) (hf : f.FlowID < 2 ^ 62)
    (hm : maxSize < 2 ^ 62) :
    f.MaxDataLen maxSize =
      some (if f.headerLen > maxSize then 0
        else if f.DataLenPresent = true ∧ 64 ≤ maxSize - f.headerLen then
          maxSize - f.headerLen - 1
        else maxSize - f.headerLen) := by
  obtain ⟨k, hk8, hk, hk0, hh⟩ := headerLen_eq f hf
  have hm' : maxSize < 4611686018427387904 := hm
  obtain ⟨n, hn, hn1⟩ := VarIntLen_cases (maxSize - f.headerLen) (by omega)
  rw [hh] at hn hn1 ⊢
  have e1 : (1 + k) % 18446744073709551616 = 1 + k := by omega
  have e2 : (1 + k + 1) % 18446744073709551616 = 1 + k + 1 := by omega
  unfold DatagramFrame.MaxDataLen
  by_cases h0 : f.FlowID = 0 <;> cases hp : f.DataLenPresent
  · have hk' := hk0 h0
    subst hk'
    simp only [h0, hp, ne_eq, not_true_eq_false, if_false, Bool.false_eq_true, false_and,
      pure, bind, Option.some_bind]
    split_ifs <;> rfl
  · have hk' := hk0 h0
    subst hk'
    simp only [hp, if_true] at hn hn1
    simp only [h0, hp, ne_eq, not_true_eq_false, if_false, if_true, true_and,
      pure, bind, Option.some_bind, Nat.reducePow, Nat.reduceAdd, Nat.reduceMod, hn]
    split_ifs <;> first | omega | (simp only [Option.some.injEq] <;> omega)
  · simp only [hp, if_false, Bool.false_eq_true] at hn hn1
    simp only [h0, hp, hk h0, ne_eq, not_false_eq_true, if_false, if_true, Bool.false_eq_true,
      false_and, pure, bind, Option.some_bind, Option.map_some', Nat.reducePow, e1,
      Nat.add_zero]
    split_ifs <;> rfl
  · simp only [hp, if_true] at hn hn1
    simp only [h0, hp, hk h0, ne_eq, not_false_eq_true, if_false, if_true, true_and,
      pure, bind, Option.some_bind, Option.map_some', Nat.reducePow, e1, e2, hn]
    split_ifs <;> first | omega | (simp only [Option.some.injEq] <;> omega)

theorem Length_eq (f : DatagramFrame) (hf : f.FlowID < 2 ^ 62)
    (hd : f.Data.length < 2 ^ 62) :
    ∃ n, ((f.Data.length < 64 ∧ n = 1) ∨ (64 ≤ f.Data.length ∧ f.Data.length < 16384 ∧ n = 2) ∨
        (16384 ≤ f.Data.length ∧ f.Data.length < 1073741824 ∧ n = 4) ∨
        (1073741824 ≤ f.Data.length ∧ n = 8)) ∧
      f.Length =
        some (f.headerLen + f.Data.length + (if f.DataLenPresent then n - 1 else 0)) := by
  obtain ⟨k, hk8, hk, hk0, hh⟩ := headerLen_eq f hf
  have hd' : f.Data.length < 4611686018427387904 := hd
  obtain ⟨n, hn, hn1⟩ := VarIntLen_cases f.Data.length hd
  refine ⟨n, hn1, ?_⟩
  rw [hh]
  unfold DatagramFrame.Length
  by_cases h0 : f.FlowID = 0 <;> cases hp : f.DataLenPresent
  · have hk' := hk0 h0
    subst hk'
    simp only [h0, hp, ne_eq, not_true_eq_false, if_false, Bool.false_eq_true,
      pure, bind, Option.some_bind, Nat.reducePow, Option.some.injEq]
    omega
  · have hk' := hk0 h0
    subst hk'
    simp only [h0, hp, hn, ne_eq, not_true_eq_false, if_false, if_true, Option.map_some',
      pure, bind, Option.some_bind, Nat.reducePow, Option.some.injEq]
    omega
  · simp only [h0, hp, hk h0, ne_eq, not_false_eq_true, if_false, if_true,
      Bool.false_eq_true, Option.map_some', pure, bind, Option.some_bind, Nat.reducePow,
      Option.some.injEq]
    omega
  · simp only [h0, hp, hk h0, hn, ne_eq, not_false_eq_true, if_false, if_true,
      Option.map_some', pure, bind, Option.some_bind, Nat.reducePow, Option.some.injEq]
    omega

theorem headerLen_congr (f g : DatagramFrame) (h1 : g.FlowID = f.FlowID)
    (h2 : g.DataLenPresent = f.DataLenPresent) : g.headerLen = f.headerLen := by
  simp [DatagramFrame.headerLen, h1, h2]

/-- Claim C13: for every `FlowID` below `2 ^ 62`, with `DataLenPresent` set or not, and
every budget `maxSize` below `2 ^ 62`, `MaxDataLen` returns, and a frame with the same
`FlowID` and `DataLenPresent` that carries one byte more than `MaxDataLen(maxSize)` has a
`Length` greater than `maxSize`. -/
theorem MaxDataLen_is_maximal (f : DatagramFrame) (maxSize : Nat) (hf : f.FlowID < 2 ^ 62)
    (hm : maxSize < 2 ^ 62) :
    ∃ d, f.MaxDataLen maxSize = some d ∧
      ∀ g : DatagramFrame, g.FlowID = f.FlowID → g.DataLenPresent = f.DataLenPresent →
        g.Data.length = d + 1 → ∃ n, g.Length = some n ∧ maxSize < n := by
  refine ⟨_, MaxDataLen_eq f maxSize hf hm, ?_⟩
  intro g hg1 hg2 hdata
  have hm' : maxSize < 4611686018427387904 := hm
  obtain ⟨k, hk8, -, -, hh⟩ := headerLen_eq f hf
  have hpos : 1 ≤ f.headerLen := by omega
  have hlen : g.Data.length < 2 ^ 62 := by
    rw [hdata]
    split_ifs <;> omega
  obtain ⟨n, hn, hL⟩ := Length_eq g (hg1 ▸ hf) hlen
  refine ⟨_, hL, ?_⟩
  rw [headerLen_congr f g hg1 hg2, hg2]
  clear hL hh
  generalize g.Data.length = len at hdata hn hlen
  generalize f.headerLen = hl at hdata hpos
  cases hp : f.DataLenPresent
  · simp only [hp, Bool.false_eq_true, false_and, if_false] at hdata ⊢
    split_ifs at hdata <;> omega
  · simp only [hp, true_and, if_true] at hdata ⊢
    split_ifs at hdata <;> omega

theorem MaxDataLen_is_maximal_witness :
    ∃ d, (⟨16384, true, []⟩ : DatagramFrame).MaxDataLen 1200 = some d ∧
      ∀ g : DatagramFrame, g.FlowID = (⟨16384, true, []⟩ : DatagramFrame).FlowID →
        g.DataLenPresent = (⟨16384, true, []⟩ : DatagramFrame).DataLenPresent →
        g.Data.length = d + 1 → ∃ n, g.Length = some n ∧ 1200 < n :=
  MaxDataLen_is_maximal ⟨16384, true, []⟩ 1200 (by decide) (by decide)

theorem Length_of_16384_bytes (data : List Nat) (h : data.length = 16384) :
    (⟨0, true, data⟩ : DatagramFrame).Length = some 16389 ∧
      ∃ w, (⟨0, true, data⟩ : DatagramFrame).Write [] = some w ∧ w.length = 16389 := by
  constructor
  · simp only [DatagramFrame.Length, h]
    decide
  · have hf : (⟨0, true, data⟩ : DatagramFrame).FlowID < 2 ^ 62 := by
      show 0 < 2 ^ 62
      decide
    refine ⟨_, Write_eq _ [] hf (fun _ => ?_), ?_⟩
    · simp only [h]
      decide
    · simp only [h, List.length_append, List.length_nil, List.length_singleton, if_true]
      decide

/-- Claim C12, as stated, fails: without flow ID and with `DataLenPresent`, the budget
16387 holds the 2-byte header, `MaxDataLen` returns 16384, and a frame with 16384 bytes of
data has a 4-byte length integer: its `Length` is 16389 and `Write` appends 16389 bytes. -/
theorem MaxDataLen_overshoots_large_budget :
    (⟨0, true, []⟩ : DatagramFrame).headerLen ≤ 16387 ∧
      (⟨0, true, []⟩ : DatagramFrame).MaxDataLen 16387 = some 16384 ∧
      (⟨0, true, List.replicate 16384 0⟩ : DatagramFrame).Length = some 16389 ∧
      (∃ w, (⟨0, true, List.replicate 16384 0⟩ : DatagramFrame).Write [] = some w ∧
        w.length = 16389) ∧
      ¬ (16389 ≤ 16387) :=
  ⟨by decide, by decide, (Length_of_16384_bytes _ (List.length_replicate _ _)).1,
    (Length_of_16384_bytes _ (List.length_replicate _ _)).2, by decide⟩

/-- Claim C12, amended: for every `FlowID` below `2 ^ 62`, with `DataLenPresent` set or
not, and every budget `maxSize` below `2 ^ 62` in which the frame header fits and which,
if `DataLenPresent`, exceeds the header by at most 16384 bytes, `MaxDataLen` returns and a
frame with the same `FlowID` and `DataLenPresent` that carries exactly
`MaxDataLen(maxSize)` bytes has a `Length` of at most `maxSize`. -/
theorem MaxDataLen_fits_budget (f : DatagramFrame) (maxSize : Nat) (hf : f.FlowID < 2 ^ 62)
    (hm : maxSize < 2 ^ 62) (hfit : f.headerLen ≤ maxSize)
    (hsmall : f.DataLenPresent = true → maxSize ≤ f.headerLen + 16384) :
    ∃ d, f.MaxDataLen maxSize = some d ∧
      ∀ g : DatagramFrame, g.FlowID = f.FlowID → g.DataLenPresent = f.DataLenPresent →
        g.Data.length = d → ∃ n, g.Length = some n ∧ n ≤ maxSize := by
  refine ⟨_, MaxDataLen_eq f maxSize hf hm, ?_⟩
  intro g hg1 hg2 hdata
  have hm' : maxSize < 4611686018427387904 := hm
  have hlen : g.Data.length < 2 ^ 62 := by
    rw [hdata]
    split_ifs <;> omega
  obtain ⟨n, hn, hL⟩ := Length_eq g (hg1 ▸ hf) hlen
  refine ⟨_, hL, ?_⟩
  rw [headerLen_congr f g hg1 hg2, hg2]
  clear hL
  generalize g.Data.length = len at hdata hn hlen
  generalize f.headerLen = hl at hdata hfit hsmall
  cases hp : f.DataLenPresent
  · simp only [hp, Bool.false_eq_true, false_and, if_false] at hdata ⊢
    split_ifs at hdata <;> omega
  · have hs := hsmall hp
    simp only [hp, true_and, if_true] at hdata ⊢
    split_ifs at hdata <;> omega

theorem MaxDataLen_fits_budget_witness :
    ∃ d, (⟨16384, true, []⟩ : DatagramFrame).MaxDataLen 1200 = some d ∧
      ∀ g : DatagramFrame, g.FlowID = (⟨16384, true, []⟩ : DatagramFrame).FlowID →
        g.DataLenPresent = (⟨16384, true, []⟩ : DatagramFrame).DataLenPresent →
        g.Data.length = d → ∃ n, g.Length = some n ∧ n ≤ 1200 :=
  MaxDataLen_fits_budget ⟨16384, true, []⟩ 1200 (by decide) (by decide) (by decide)
    (fun _ => by decide)

/-- Claim C14, as stated, fails: for a frame without flow ID and with `DataLenPresent`,
`MaxDataLen(75)` is not 73. -/
theorem MaxDataLen_75_is_not_73 :
    (⟨0, true, []⟩ : DatagramFrame).MaxDataLen 75 ≠ some 73 := by
  decide

/-- Claim C14, amended: for a frame with `FlowID` 0 and `DataLenPresent`, whatever its
data, `MaxDataLen(75)` returns 72: one type byte, two bytes of length and 72 bytes of data
fill the budget of 75 bytes. -/
theorem MaxDataLen_75_is_72 (data : List Nat) :
    (⟨0, true, data⟩ : DatagramFrame).MaxDataLen 75 = some 72 ∧
      (⟨0, true, List.replicate 72 0⟩ : DatagramFrame).Length = some 75 ∧
      (⟨0, true, List.replicate 73 0⟩ : DatagramFrame).Length = some 76 := by
  refine ⟨?_, by decide, by decide⟩
  simp only [DatagramFrame.MaxDataLen]
  decide

end wire
